import Mathlib

/-!
# Elasticsearch service (`main.go`): embedding and verification

The program is a thin layer over three libraries: the Elasticsearch client, `encoding/json`
and the echo HTTP framework.  The embedding keeps the control flow of `main.go` as it is
written and takes what the libraries hand back as data:

* a call through the engine client yields either a transport error or a response with a
  status code and a body (the client reports an error only when the transport fails; a
  response with a non-2xx status comes back with a nil error);
* a response body is described by the value `encoding/json` decodes it to (`Value`, the
  dynamic `interface{}` tree in which every JSON number is a `float64`), or by the fact
  that it does not decode;
* a Go panic is a separate outcome, distinct from returning an error.

Text is JSON only where the program itself handles text: the request body `Search`
concatenates, and the document `json.Marshal` writes for a record.  `parseJson` reads such
text into a `Value` the way the decoder does (numbers become the nearest `float64`).

Go strings are modelled by `String` (sequences of Unicode code points, that is, valid
UTF-8 text) and Go's `int` is the 64-bit one.
-/

namespace EsGolang

/-! ## Outcomes of a Go call -/

/-- A Go call either returns its results or panics with a message. -/
inductive Outcome (α : Type) where
  | returned (a : α)
  | panicked (msg : String)
deriving DecidableEq, Repr

/-! ## `float64` and the numbers of a decoded document -/

/-- Number of binary digits of a natural number (`bits.Len`), with an explicit fuel. -/
def bitLenAux : Nat → Nat → Nat
  | 0, _ => 0
  | fuel + 1, n => if n = 0 then 0 else bitLenAux fuel (n / 2) + 1

/-- Number of binary digits of `n`. -/
def bitLen (n : Nat) : Nat := bitLenAux n n

/-- A finite `float64`: the value `(-1)^neg * mant * 2^exp`.  Every finite double has such a
form with `mant < 2^53`; the functions below only depend on the value denoted. -/
structure Float64 where
  neg : Bool
  mant : Nat
  exp : Int
deriving DecidableEq, Repr

/-- The double nearest to the whole number `a`, with the given sign: ties go to the even
mantissa; numbers of at most 53 bits are exact. -/
def Float64.round (neg : Bool) (a : Nat) : Float64 :=
  let b := bitLen a
  if b ≤ 53 then ⟨neg, a, 0⟩
  else
    let s := b - 53
    let q := a / 2 ^ s
    let r := a % 2 ^ s
    let half := 2 ^ (s - 1)
    let q' := if half < r ∨ (r = half ∧ q % 2 = 1) then q + 1 else q
    ⟨neg, q', (s : Int)⟩

/-- The `float64` the decoder produces for an integer literal (`strconv.ParseFloat`):
the nearest double. -/
def Float64.ofInt (n : Int) : Float64 := Float64.round (decide (n < 0)) n.natAbs

/-- The double nearest to the fraction `num / den` (`den` positive), ties to the even
mantissa: the fraction is scaled by a power of two so that its quotient has 53 bits (or
as many as the smallest exponent, `-1074`, leaves), and the quotient is rounded. -/
def Float64.ofRatio (neg : Bool) (num den : Nat) : Float64 :=
  if num = 0 then ⟨neg, 0, 0⟩
  else
    let k0 : Int := 53 + (bitLen den : Int) - (bitLen num : Int)
    let x := if 0 ≤ k0 then num * 2 ^ k0.toNat / den else num / (den * 2 ^ (-k0).toNat)
    let k1 : Int := if 2 ^ 53 ≤ x then k0 - 1 else k0
    let k : Int := if 1074 < k1 then 1074 else k1
    let a := if 0 ≤ k then num * 2 ^ k.toNat else num
    let b := if 0 ≤ k then den else den * 2 ^ (-k).toNat
    let q := a / b
    let r := a % b
    let q' := if b < 2 * r ∨ (2 * r = b ∧ q % 2 = 1) then q + 1 else q
    ⟨neg, q', -k⟩

/-- A number literal as it is read: sign, the digits before and after the point taken
together (`coef`), the number of digits after the point (`scale`) and the exponent. -/
structure NumLit where
  neg : Bool := false
  coef : Nat := 0
  scale : Nat := 0
  expNeg : Bool := false
  exp : Nat := 0
deriving DecidableEq, Repr

/-- The first power of two beyond the finite doubles, `2^1024`. -/
def float64Limit : Nat := 2 ^ 256 * 2 ^ 256 * 2 ^ 256 * 2 ^ 256

/-- The double of a number literal (`strconv.ParseFloat`), `none` when the literal is
out of the range of `float64` (the decoder then reports an error). -/
def Float64.ofLiteral (l : NumLit) : Option Float64 :=
  let e10 : Int := (if l.expNeg then -(l.exp : Int) else (l.exp : Int)) - (l.scale : Int)
  let f := if 0 ≤ e10 then Float64.round l.neg (l.coef * 10 ^ e10.toNat)
    else Float64.ofRatio l.neg l.coef (10 ^ (-e10).toNat)
  if 0 ≤ f.exp ∧ float64Limit ≤ f.mant * 2 ^ f.exp.toNat then none else some f

/-- The magnitude of a double when it is a whole number, `none` when it has a fraction. -/
def Float64.natAbs? (f : Float64) : Option Nat :=
  if 0 ≤ f.exp then some (f.mant * 2 ^ f.exp.toNat)
  else if f.mant % 2 ^ (-f.exp).toNat = 0 then some (f.mant / 2 ^ (-f.exp).toNat)
  else none

/-- The whole numbers that round to the double of magnitude `a` (a whole number): the
closed range `(lo, hi)`.  Below `2^53` neighbouring doubles are at most 1 apart, so `a` is
alone.  Above, the range reaches half a unit in the last place to each side, the end
points included when the mantissa is even; under a power of two the gap is half as wide. -/
def roundRange (a : Nat) : Nat × Nat :=
  let b := bitLen a
  if b ≤ 53 then (a, a)
  else
    let s := b - 53
    let half := 2 ^ (s - 1)
    let even := (a / 2 ^ s) % 2 = 0
    let hi := if even then a + half else a + half - 1
    let lo := if a = 2 ^ (b - 1) then a - half / 2
              else if even then a - half else a - half + 1
    (lo, hi)

/-- Search for the shortest decimal: `p` runs over the powers of ten; as long as a multiple
of `p` lies in the range `lo..hi` that multiple (the nearer one when both neighbours of `a`
qualify, the even digit on a tie) replaces the candidate. -/
def shortestAux (a lo hi : Nat) : Nat → Nat → Nat → Nat
  | 0, _, best => best
  | fuel + 1, p, best =>
    let down := a / p * p
    let up := down + p
    if lo ≤ down ∧ up ≤ hi then
      shortestAux a lo hi fuel (p * 10)
        (if a - down < up - a then down
         else if up - a < a - down then up
         else if (a / p) % 2 = 0 then down else up)
    else if lo ≤ down then shortestAux a lo hi fuel (p * 10) down
    else if up ≤ hi then shortestAux a lo hi fuel (p * 10) up
    else best

/-- The digits `strconv.FormatFloat(f, 'f', -1, 64)` prints for a whole-valued double of
magnitude `a`, read back as a number: the decimal with the fewest significant digits that
still rounds to the same double (`json.Marshal` formats a `float64` this way). -/
def shortestDecimal (a : Nat) : Nat :=
  shortestAux a (roundRange a).1 (roundRange a).2 (bitLen a + 1) 10 a

/-- What `json.Marshal` of a `float64` followed by `json.Unmarshal` into an `int` stores:
the marshalled text must be an integer literal (no fraction, no exponent) that
`strconv.ParseInt(_, 10, 64)` accepts; otherwise the decoder records a type error and
leaves the field alone (`none`). -/
def Float64.toInt? (f : Float64) : Option Int :=
  match f.natAbs? with
  | none => none
  | some a =>
    let d := shortestDecimal a
    if f.neg then (if d ≤ 2 ^ 63 then some (-(d : Int)) else none)
    else if d < 2 ^ 63 then some (d : Int) else none

/-! ## Decoded JSON values -/

/-- What `encoding/json` builds when it decodes into an `interface{}`: `nil`, `bool`,
`float64`, `string`, `[]interface{}` or `map[string]interface{}`.  A map is given by the
members of the JSON object in document order; a later member replaces an earlier one with
the same key. -/
inductive Value where
  | nil
  | bool (b : Bool)
  | float64 (f : Float64)
  | string (s : String)
  | slice (xs : List Value)
  | map (kvs : List (String × Value))
deriving Repr

mutual
/-- Equality test on decoded values. -/
def Value.beq : Value → Value → Bool
  | .nil, .nil => true
  | .bool a, .bool b => a == b
  | .float64 a, .float64 b => a == b
  | .string a, .string b => a == b
  | .slice xs, .slice ys => Value.beqList xs ys
  | .map xs, .map ys => Value.beqMembers xs ys
  | _, _ => false
/-- Equality test on lists of decoded values. -/
def Value.beqList : List Value → List Value → Bool
  | [], [] => true
  | x :: xs, y :: ys => Value.beq x y && Value.beqList xs ys
  | _, _ => false
/-- Equality test on the members of two objects. -/
def Value.beqMembers : List (String × Value) → List (String × Value) → Bool
  | [], [] => true
  | (k, x) :: xs, (l, y) :: ys => k == l && Value.beq x y && Value.beqMembers xs ys
  | _, _ => false
end

/-- Go's name of the dynamic type, as printed in a failed type assertion. -/
def Value.typeName : Value → String
  | .nil => "nil"
  | .bool _ => "bool"
  | .float64 _ => "float64"
  | .string _ => "string"
  | .slice _ => "[]interface \x7b\x7d"
  | .map _ => "map[string]interface \x7b\x7d"

/-- The value of the last member with key `k`, if there is one. -/
def lookupLast : List (String × Value) → String → Option Value
  | [], _ => none
  | (k', v) :: rest, k =>
    match lookupLast rest k with
    | some w => some w
    | none => if k' = k then some v else none

/-- Map indexing `m[k]`: the value stored under `k`, the nil interface when there is none. -/
def mapIndex (m : List (String × Value)) (k : String) : Value :=
  (lookupLast m k).getD .nil

/-! ## The domain record and its JSON decoding -/

/-- `type Product struct` with its four tagged fields. -/
structure Product where
  Name : String := ""
  Price : Int := 0
  Tag : String := ""
  Description : String := ""
deriving DecidableEq, Repr

/-- The four fields of `Product`. -/
inductive Field where
  | name
  | price
  | tag
  | description
deriving DecidableEq, Repr, Fintype

/-- The `json:"..."` tag of a field. -/
def Field.jsonName : Field → String
  | .name => "name"
  | .price => "price"
  | .tag => "tag"
  | .description => "description"

/-- Case folding of one character as `encoding/json` does it when it compares an object
key with a field name: ASCII letters to upper case, and the two non-ASCII characters whose
fold orbit holds an ASCII letter (U+017F long s, U+212A Kelvin sign) to that letter. -/
def foldRune (c : Char) : Char :=
  if 97 ≤ c.toNat ∧ c.toNat ≤ 122 then Char.ofNat (c.toNat - 32)
  else if c.toNat = 0x17F then Char.ofNat 83
  else if c.toNat = 0x212A then Char.ofNat 75
  else c

/-- The folded form of a key. -/
def foldName (s : String) : List Char := s.data.map foldRune

/-- The field a key of the object decodes into: the field whose tag is the key, otherwise
the field whose tag equals the key up to case folding, otherwise none (the member is
skipped). -/
def fieldOf (key : String) : Option Field :=
  match [Field.name, Field.price, Field.tag, Field.description].find?
      (fun f => decide (f.jsonName = key)) with
  | some f => some f
  | none => [Field.name, Field.price, Field.tag, Field.description].find?
      (fun f => decide (foldName f.jsonName = foldName key))

/-- Decoding one member value into a field.  A string field takes a JSON string, the
`int` field takes a number whose text is an integer literal in range; `null` and values
of any other type leave the field as it is (the decoder records a type error and goes
on). -/
def setField (p : Product) : Field → Value → Product
  | .name, .string s => { p with Name := s }
  | .tag, .string s => { p with Tag := s }
  | .description, .string s => { p with Description := s }
  | .price, .float64 x =>
    match x.toInt? with
    | some n => { p with Price := n }
    | none => p
  | _, _ => p

/-- Order of keys by their bytes (for UTF-8 text, the order of the code points). -/
def ltChars : List Char → List Char → Bool
  | [], [] => false
  | [], _ :: _ => true
  | _ :: _, [] => false
  | a :: as, b :: bs =>
    if a.toNat < b.toNat then true
    else if b.toNat < a.toNat then false
    else ltChars as bs

/-- The relation `a ≤ b` on keys. -/
def KeyLe (a b : String) : Prop := ltChars b.data a.data = false

instance : DecidableRel KeyLe := fun a b =>
  inferInstanceAs (Decidable (ltChars b.data a.data = false))

/-- The keys of a map in the order `json.Marshal` writes them: each once, sorted. -/
def sortedKeys (m : List (String × Value)) : List String :=
  ((m.map Prod.fst).dedup).insertionSort KeyLe

/-- Decoding the member with key `k` of the map `m` into the record: into the field the
key stands for, or nowhere. -/
def decodeMember (m : List (String × Value)) (p : Product) (k : String) : Product :=
  match fieldOf k with
  | some f => setField p f (mapIndex m k)
  | none => p

/-- The pair of calls `data, _ := json.Marshal(v)` and `json.Unmarshal(data, &product)`
of the search loop, on a decoded value `v`.  Marshalling cannot fail on a decoded tree.
A map is written with its keys sorted and read back member by member into the record;
`null` (a nil interface) leaves the record alone; for any other value `Unmarshal` reports
a type error, which the loop drops, and the record is left alone. -/
def unmarshalProduct (product : Product) : Value → Product
  | .map m => (sortedKeys m).foldl (decodeMember m) product
  | _ => product

/-! ## Text written by `json.Marshal` for a record -/

/-- Lower-case hexadecimal digit. -/
def hexDigit (n : Nat) : Char :=
  if n < 10 then Char.ofNat (48 + n) else Char.ofNat (87 + n)

/-- The escape `\u` followed by four hexadecimal digits. -/
def unicodeEscape (n : Nat) : List Char :=
  [Char.ofNat 92, Char.ofNat 117, hexDigit (n / 4096 % 16), hexDigit (n / 256 % 16),
    hexDigit (n / 16 % 16), hexDigit (n % 16)]

/-- How `json.Marshal` writes one character of a string (HTML escaping is on by
default): quote and backslash get a backslash, the control characters their short or
`\u00XX` form, `<`, `>`, `&`, U+2028 and U+2029 a `\u` form. -/
def escapeRune (c : Char) : List Char :=
  if c.toNat = 34 then [Char.ofNat 92, Char.ofNat 34]
  else if c.toNat = 92 then [Char.ofNat 92, Char.ofNat 92]
  else if c.toNat = 8 then [Char.ofNat 92, Char.ofNat 98]
  else if c.toNat = 12 then [Char.ofNat 92, Char.ofNat 102]
  else if c.toNat = 10 then [Char.ofNat 92, Char.ofNat 110]
  else if c.toNat = 13 then [Char.ofNat 92, Char.ofNat 114]
  else if c.toNat = 9 then [Char.ofNat 92, Char.ofNat 116]
  else if c.toNat < 32 ∨ c.toNat = 60 ∨ c.toNat = 62 ∨ c.toNat = 38
      ∨ c.toNat = 0x2028 ∨ c.toNat = 0x2029 then unicodeEscape c.toNat
  else [c]

/-- The decimal digit `d`. -/
def digitChar (d : Nat) : Char := Char.ofNat (48 + d)

/-- The decimal digits of `n`, most significant first, with an explicit fuel. -/
def natDigitsAux : Nat → Nat → List Char
  | 0, n => [digitChar n]
  | fuel + 1, n =>
    if n < 10 then [digitChar n] else natDigitsAux fuel (n / 10) ++ [digitChar (n % 10)]

/-- The decimal digits of `n`. -/
def natDigits (n : Nat) : List Char := natDigitsAux n n

/-- An integer in decimal, as `json.Marshal` writes an `int`. -/
def intText (n : Int) : String :=
  String.mk (if n < 0 then Char.ofNat 45 :: natDigits n.natAbs else natDigits n.natAbs)

/-- A string as a JSON string literal. -/
def marshalString (s : String) : String :=
  String.mk ([Char.ofNat 34] ++ (s.data.map escapeRune).flatten ++ [Char.ofNat 34])

/-- Opening brace and the key of the first field. -/
def nameKey : String := "\x7b\"name\":"

/-- Separator and key of the second field. -/
def priceKey : String := ",\"price\":"

/-- Separator and key of the third field. -/
def tagKey : String := ",\"tag\":"

/-- Separator and key of the fourth field. -/
def descriptionKey : String := ",\"description\":"

/-- Text of `json.Marshal(p)` for a `Product`: the fields in declaration order. -/
def marshalProduct (p : Product) : String :=
  nameKey ++ marshalString p.Name ++ priceKey ++ intText p.Price
    ++ tagKey ++ marshalString p.Tag
    ++ descriptionKey ++ marshalString p.Description ++ "\x7d"

/-- Text of the JSON encoding of a `[]Product`: `null` for the nil slice. -/
def marshalProducts : List Product → String
  | [] => "null"
  | ps => "[" ++ ",".intercalate (ps.map marshalProduct) ++ "]"

/-! ## The engine client -/

/-- Body of a response, as `json.NewDecoder(res.Body).Decode` meets it: bytes that do not
start with a JSON text it can decode, or the value it decodes them to. -/
inductive Body where
  | malformed
  | json (v : Value)
deriving Repr

/-- Response of the engine: `esapi.Response`. -/
structure Response where
  StatusCode : Nat
  Body : Body
deriving Repr

/-- The method `IsError` of a response: a status above 299. -/
def Response.IsError (r : Response) : Bool := decide (299 < r.StatusCode)

/-- What a call through the client returns: `(nil, err)` when the request could not be
performed, `(res, nil)` when the engine answered, whatever the status of the answer. -/
inductive CallResult where
  | transportError (err : String)
  | response (res : Response)
deriving Repr

/-- The options `Search` passes to `es.Search`. -/
structure SearchRequest where
  Index : List String
  Body : String
  TrackTotalHits : Bool
  Pretty : Bool
deriving DecidableEq, Repr

/-- The engine behind a client, with a state of type `σ`: every call takes the state of
the engine and gives the next state together with what the client returns. -/
structure Client (σ : Type) where
  IndicesCreate : σ → String → String → σ × CallResult
  Index : σ → String → String → σ × CallResult
  Search : σ → SearchRequest → σ × CallResult

/-- `NewElasticsearch`: panics when `elasticsearch.NewDefaultClient()` fails (given here
as its result), so the error it returns is always nil. -/
def NewElasticsearch {σ : Type} (newDefaultClient : Except String (Client σ)) :
    Outcome (Client σ × Option String) :=
  match newDefaultClient with
  | .error err => .panicked err
  | .ok es => .returned (es, none)

/-! ## The three operations -/

/-- The mapping document `CreateIndex` sends. -/
def mapping : String :=
  "\x7b\n\t\t\"settings\": \x7b\n\t\t\t\"number_of_shards\": 1\n\t\t\t\x7d,\n\t\t\t\"mappings\": \x7b\n\t\t\t\"properties\": \x7b\n\t\t\t\t\"field1\": \x7b\n\t\t\t\t\"type\": \"text\"\n\t\t\t\t\x7d\n\t\t\t\x7d\n\t\t\x7d\n\t\x7d"

/-- `CreateIndex(ctx, index)`: the returned error is `none` for nil. -/
def CreateIndex {σ : Type} (newDefaultClient : Except String (Client σ)) (s : σ)
    (index : String) : σ × Outcome (Option String) :=
  match NewElasticsearch newDefaultClient with
  | .panicked msg => (s, .panicked msg)
  | .returned (_, some err) =>
    (s, .returned (some ("error creating new Elasticsearch: " ++ err)))
  | .returned (es, none) =>
    match es.IndicesCreate s index mapping with
    | (s', .transportError err) => (s', .returned (some ("error creating index: " ++ err)))
    | (s', .response _) => (s', .returned none)

/-- The record `Index` stores. -/
def indexedProduct : Product :=
  { Name := "Iphone 14 Pro", Price := 1000000, Tag := "Smartphone",
    Description := "Iphone 14 Pro with 1TB storage" }

/-- `Index(ctx)`.  `json.Marshal` cannot fail on a `Product`. -/
def Index {σ : Type} (newDefaultClient : Except String (Client σ)) (s : σ) :
    σ × Outcome (Option String) :=
  match NewElasticsearch newDefaultClient with
  | .panicked msg => (s, .panicked msg)
  | .returned (_, some _) =>
    (s, .returned (some "error when creating new elasticsearch client"))
  | .returned (es, none) =>
    match es.Index s "hello" (marshalProduct indexedProduct) with
    | (s', .transportError err) => (s', .returned (some ("error indexing data: " ++ err)))
    | (s', .response _) => (s', .returned none)

/-- The text before the query in the request body of `Search`. -/
def requestHead : String :=
  "\x7b\n\t\t\"query\": \x7b\n\t\t\t\"multi_match\": \x7b\n\t\t\t\t\"query\": \""

/-- The text after the query in the request body of `Search`. -/
def requestTail : String :=
  "\",\n\t\t\t\t\"type\": \"phrase_prefix\",\n\t\t\t\t\"fields\": [\"name\", \"tag\", \"description\"]\n\t\t\t\x7d\n\t\t\x7d\n\t\x7d"

/-- The request body `Search` builds (`req`): the query text is spliced, as it is,
between the two fixed pieces of text. -/
def searchRequestBody (query : String) : String :=
  requestHead ++ query ++ requestTail

/-- The call `es.Search(WithContext(ctx), WithIndex("hello"), WithBody(req),
WithTrackTotalHits(true), WithPretty())`; the context is the background context. -/
def searchRequest (query : String) : SearchRequest :=
  { Index := ["hello"], Body := searchRequestBody query, TrackTotalHits := true,
    Pretty := true }

/-- Decoding the body into `var result map[string]interface{}`: an object gives its map,
`null` leaves the nil map (which reads as empty), anything else is an error (`none`). -/
def decodeResult : Body → Option (List (String × Value))
  | .json (.map m) => some m
  | .json .nil => some []
  | _ => none

/-- Message of the runtime panic of a failed type assertion `v.(T)`. -/
def conversionPanic (v : Value) (want : String) : String :=
  "interface conversion: interface \x7b\x7d is " ++ v.typeName ++ ", not " ++ want

/-- The loop over the hits: each hit is asserted to be a map (a panic otherwise), its
`_source` is marshalled and unmarshalled into a fresh `Product`, which is appended. -/
def searchLoop : List Value → List Product → Outcome (List Product)
  | [], products => .returned products
  | .map hit :: rest, products =>
    searchLoop rest (products ++ [unmarshalProduct {} (mapIndex hit "_source")])
  | v :: _, _ => .panicked (conversionPanic v "map[string]interface \x7b\x7d")

/-- `Search(ctx, query)`: the pair of the returned slice (`[]` for nil) and the returned
error (`none` for nil). -/
def Search {σ : Type} (newDefaultClient : Except String (Client σ)) (s : σ)
    (query : String) : σ × Outcome (List Product × Option String) :=
  match NewElasticsearch newDefaultClient with
  | .panicked msg => (s, .panicked msg)
  | .returned (_, some _) =>
    (s, .returned ([], some "error when creating new elasticsearch client"))
  | .returned (es, none) =>
    match es.Search s (searchRequest query) with
    | (s', .transportError _) => (s', .returned ([], some "error when searching data"))
    | (s', .response res) =>
      match decodeResult res.Body with
      | none => (s', .returned ([], some "error when decoding data"))
      | some result =>
        match mapIndex result "hits" with
        | .map hits =>
          match mapIndex hits "hits" with
          | .slice hs =>
            match searchLoop hs [] with
            | .returned products => (s', .returned (products, none))
            | .panicked msg => (s', .panicked msg)
          | v => (s', .panicked (conversionPanic v "[]interface \x7b\x7d"))
        | v => (s', .panicked (conversionPanic v "map[string]interface \x7b\x7d"))

/-! ## The HTTP routes of `main` -/

/-- Kind of body a handler writes: `c.String` or `c.JSON`. -/
inductive ContentKind where
  | text
  | json
deriving DecidableEq, Repr

/-- What a handler writes: status, kind of body, body. -/
structure HttpResponse where
  status : Nat
  kind : ContentKind
  body : String
deriving DecidableEq, Repr

/-- Handler of `GET /`. -/
def rootRoute : HttpResponse := ⟨200, .text, "Hello, World!1"⟩

/-- Handler of `POST /create`; `indexParam` is `c.QueryParam("index")`. -/
def createRoute {σ : Type} (newDefaultClient : Except String (Client σ)) (s : σ)
    (indexParam : String) : σ × Outcome HttpResponse :=
  match CreateIndex newDefaultClient s indexParam with
  | (s', .panicked msg) => (s', .panicked msg)
  | (s', .returned (some err)) => (s', .returned ⟨500, .text, err⟩)
  | (s', .returned none) => (s', .returned ⟨200, .text, "Hello, World!2"⟩)

/-- Handler of `POST /index`. -/
def indexRoute {σ : Type} (newDefaultClient : Except String (Client σ)) (s : σ) :
    σ × Outcome HttpResponse :=
  match Index newDefaultClient s with
  | (s', .panicked msg) => (s', .panicked msg)
  | (s', .returned (some err)) => (s', .returned ⟨500, .text, err⟩)
  | (s', .returned none) => (s', .returned ⟨200, .text, "Hello, World!3"⟩)

/-- Handler of `GET /search`; `searchParam` is `c.QueryParam("search")`.  The JSON
encoder ends its output with a newline. -/
def searchRoute {σ : Type} (newDefaultClient : Except String (Client σ)) (s : σ)
    (searchParam : String) : σ × Outcome HttpResponse :=
  match Search newDefaultClient s searchParam with
  | (s', .panicked msg) => (s', .panicked msg)
  | (s', .returned (_, some _)) => (s', .returned ⟨500, .text, "Error when indexing data"⟩)
  | (s', .returned (res, none)) =>
    (s', .returned ⟨200, .json, marshalProducts res ++ "\n"⟩)

/-! ## JSON text

Reading JSON text into a `Value`: the tokens first, then the values.  This is how the
engine reads a request body and how the decoder reads the text of a document. -/

/-- Tokens of JSON text. -/
inductive Token where
  | lbrace
  | rbrace
  | lbrack
  | rbrack
  | colon
  | comma
  | str (s : String)
  | num (f : Float64)
  | tru
  | fls
  | nul
deriving DecidableEq, Repr

/-- Progress inside a number literal `-?(0|[1-9][0-9]*)(.[0-9]+)?([eE][+-]?[0-9]+)?`. -/
inductive NumState where
  | minus
  | zero
  | int
  | fracStart
  | frac
  | expStart
  | expSign
  | exp
deriving DecidableEq, Repr

/-- What the tokenizer is in the middle of. -/
inductive LexMode where
  | top
  | string (acc : List Char)
  | escape (acc : List Char)
  | unicode (acc : List Char) (hi : Option Nat) (digits : List Nat)
  | lowSlash (acc : List Char) (hi : Nat)
  | lowU (acc : List Char) (hi : Nat)
  | number (st : NumState) (lit : NumLit)
  | word (acc : List Char)
deriving DecidableEq, Repr

/-- State of the tokenizer: the mode and the tokens read so far. -/
structure LexState where
  mode : LexMode
  toks : List Token
deriving DecidableEq, Repr

/-- Value of a hexadecimal digit. -/
def hexVal (c : Char) : Option Nat :=
  let n := c.toNat
  if 48 ≤ n ∧ n ≤ 57 then some (n - 48)
  else if 97 ≤ n ∧ n ≤ 102 then some (n - 87)
  else if 65 ≤ n ∧ n ≤ 70 then some (n - 55)
  else none

/-- A character read between tokens: the mode to go on in and the tokens it completes. -/
def topStep (c : Char) : Option (LexMode × List Token) :=
  let n := c.toNat
  if n = 32 ∨ n = 9 ∨ n = 10 ∨ n = 13 then some (.top, [])
  else if n = 123 then some (.top, [.lbrace])
  else if n = 125 then some (.top, [.rbrace])
  else if n = 91 then some (.top, [.lbrack])
  else if n = 93 then some (.top, [.rbrack])
  else if n = 58 then some (.top, [.colon])
  else if n = 44 then some (.top, [.comma])
  else if n = 34 then some (.string [], [])
  else if n = 45 then some (.number .minus { neg := true }, [])
  else if n = 48 then some (.number .zero {}, [])
  else if 49 ≤ n ∧ n ≤ 57 then some (.number .int { coef := n - 48 }, [])
  else if 97 ≤ n ∧ n ≤ 122 then some (.word [c], [])
  else none

/-- Whether a character can stand inside a number literal. -/
def isNumChar (c : Char) : Bool :=
  let n := c.toNat
  decide ((48 ≤ n ∧ n ≤ 57) ∨ n = 46 ∨ n = 101 ∨ n = 69 ∨ n = 43 ∨ n = 45)

/-- One more character of a number literal. -/
def numStep (st : NumState) (c : Char) : Option NumState :=
  let n := c.toNat
  let digit := 48 ≤ n ∧ n ≤ 57
  match st with
  | .minus => if n = 48 then some .zero else if digit then some .int else none
  | .zero => if n = 46 then some .fracStart else if n = 101 ∨ n = 69 then some .expStart else none
  | .int =>
    if digit then some .int else if n = 46 then some .fracStart
    else if n = 101 ∨ n = 69 then some .expStart else none
  | .fracStart => if digit then some .frac else none
  | .frac => if digit then some .frac else if n = 101 ∨ n = 69 then some .expStart else none
  | .expStart => if digit then some .exp else if n = 43 ∨ n = 45 then some .expSign else none
  | .expSign => if digit then some .exp else none
  | .exp => if digit then some .exp else none

/-- The literal after one more character, read in the state `st`: a digit goes to the
digits of the number or to the exponent, a minus sign after `e` makes the exponent
negative. -/
def numAdd (st : NumState) (l : NumLit) (c : Char) : NumLit :=
  let n := c.toNat
  if 48 ≤ n ∧ n ≤ 57 then
    match st with
    | .minus | .zero | .int => { l with coef := l.coef * 10 + (n - 48) }
    | .fracStart | .frac => { l with coef := l.coef * 10 + (n - 48), scale := l.scale + 1 }
    | .expStart | .expSign | .exp => { l with exp := l.exp * 10 + (n - 48) }
  else if n = 45 then { l with expNeg := true }
  else l

/-- The token of a complete number literal. -/
def numToken (l : NumLit) : Option Token :=
  match Float64.ofLiteral l with
  | some f => some (.num f)
  | none => none

/-- The states in which a number literal may end. -/
def numFinal : NumState → Bool
  | .zero | .int | .frac | .exp => true
  | _ => false

/-- The token of a bare word. -/
def wordToken (acc : List Char) : Option Token :=
  if acc = "true".data then some .tru
  else if acc = "false".data then some .fls
  else if acc = "null".data then some .nul
  else none

/-- The character a `\u` escape stands for, or the mode to go on in after the first half
of a surrogate pair. -/
def unicodeDone (acc : List Char) (hi : Option Nat) (n : Nat) : Option LexMode :=
  match hi with
  | none =>
    if 0xD800 ≤ n ∧ n < 0xDC00 then some (.lowSlash acc n)
    else if 0xDC00 ≤ n ∧ n < 0xE000 then none
    else some (.string (acc ++ [Char.ofNat n]))
  | some h =>
    if 0xDC00 ≤ n ∧ n < 0xE000 then
      some (.string (acc ++ [Char.ofNat (0x10000 + (h - 0xD800) * 0x400 + (n - 0xDC00))]))
    else none

/-- A character that ends a number or a word: the token is completed and the character
is read as one between tokens. -/
def endToken (t : Token) (c : Char) : Option (LexMode × List Token) :=
  match topStep c with
  | some (m, ts) => some (m, t :: ts)
  | none => none

/-- One character read in a mode: the next mode and the tokens completed. -/
def modeStep (mode : LexMode) (c : Char) : Option (LexMode × List Token) :=
  let n := c.toNat
  match mode with
  | .top => topStep c
  | .string acc =>
    if n = 34 then some (.top, [.str (String.mk acc)])
    else if n = 92 then some (.escape acc, [])
    else if n < 32 then none
    else some (.string (acc ++ [c]), [])
  | .escape acc =>
    if n = 34 ∨ n = 92 ∨ n = 47 then some (.string (acc ++ [c]), [])
    else if n = 98 then some (.string (acc ++ [Char.ofNat 8]), [])
    else if n = 102 then some (.string (acc ++ [Char.ofNat 12]), [])
    else if n = 110 then some (.string (acc ++ [Char.ofNat 10]), [])
    else if n = 114 then some (.string (acc ++ [Char.ofNat 13]), [])
    else if n = 116 then some (.string (acc ++ [Char.ofNat 9]), [])
    else if n = 117 then some (.unicode acc none [], [])
    else none
  | .unicode acc hi ds =>
    match hexVal c with
    | none => none
    | some d =>
      match ds with
      | [d1, d2, d3] =>
        match unicodeDone acc hi (d1 * 4096 + d2 * 256 + d3 * 16 + d) with
        | some m => some (m, [])
        | none => none
      | _ => some (.unicode acc hi (ds ++ [d]), [])
  | .lowSlash acc h => if n = 92 then some (.lowU acc h, []) else none
  | .lowU acc h => if n = 117 then some (.unicode acc (some h) [], []) else none
  | .number ns l =>
    if isNumChar c then
      match numStep ns c with
      | some ns' => some (.number ns' (numAdd ns l c), [])
      | none => none
    else if numFinal ns then
      match numToken l with
      | some t => endToken t c
      | none => none
    else none
  | .word acc =>
    if 97 ≤ n ∧ n ≤ 122 then some (.word (acc ++ [c]), [])
    else
      match wordToken acc with
      | some t => endToken t c
      | none => none

/-- One step of the tokenizer. -/
def lexStep (st : LexState) (c : Char) : Option LexState :=
  match modeStep st.mode c with
  | some (m, ts) => some ⟨m, st.toks ++ ts⟩
  | none => none

/-- Running the tokenizer over a text. -/
def lexRun : LexState → List Char → Option LexState
  | st, [] => some st
  | st, c :: cs =>
    match lexStep st c with
    | some st' => lexRun st' cs
    | none => none

/-- The tokens at the end of the text: a string literal or an escape may not be left
open. -/
def lexEnd (st : LexState) : Option (List Token) :=
  match st.mode with
  | .top => some st.toks
  | .number ns l =>
    if numFinal ns then
      match numToken l with
      | some t => some (st.toks ++ [t])
      | none => none
    else none
  | .word acc =>
    match wordToken acc with
    | some t => some (st.toks ++ [t])
    | none => none
  | _ => none

/-- The tokens of a text. -/
def lex (cs : List Char) : Option (List Token) :=
  match lexRun ⟨.top, []⟩ cs with
  | some st => lexEnd st
  | none => none

mutual
/-- One value at the head of the tokens, and the tokens after it. -/
def parseValue : Nat → List Token → Option (Value × List Token)
  | 0, _ => none
  | _ + 1, .str s :: rest => some (.string s, rest)
  | _ + 1, .num f :: rest => some (.float64 f, rest)
  | _ + 1, .tru :: rest => some (.bool true, rest)
  | _ + 1, .fls :: rest => some (.bool false, rest)
  | _ + 1, .nul :: rest => some (.nil, rest)
  | _ + 1, .lbrack :: .rbrack :: rest => some (.slice [], rest)
  | fuel + 1, .lbrack :: rest => parseElements fuel rest []
  | _ + 1, .lbrace :: .rbrace :: rest => some (.map [], rest)
  | fuel + 1, .lbrace :: rest => parseMembers fuel rest []
  | _ + 1, _ => none
/-- The elements of an array after its opening bracket. -/
def parseElements : Nat → List Token → List Value → Option (Value × List Token)
  | 0, _, _ => none
  | fuel + 1, toks, acc =>
    match parseValue fuel toks with
    | some (v, .comma :: rest) => parseElements fuel rest (acc ++ [v])
    | some (v, .rbrack :: rest) => some (.slice (acc ++ [v]), rest)
    | _ => none
/-- The members of an object after its opening brace. -/
def parseMembers : Nat → List Token → List (String × Value) → Option (Value × List Token)
  | 0, _, _ => none
  | fuel + 1, .str k :: .colon :: toks, acc =>
    match parseValue fuel toks with
    | some (v, .comma :: rest) => parseMembers fuel rest (acc ++ [(k, v)])
    | some (v, .rbrace :: rest) => some (.map (acc ++ [(k, v)]), rest)
    | _ => none
  | _ + 1, _, _ => none
end

/-- A JSON document: one value and nothing but white space around it. -/
def parseJson (text : String) : Option Value :=
  match lex text.data with
  | none => none
  | some toks =>
    match parseValue (toks.length + 1) toks with
    | some (v, []) => some v
    | _ => none

/-! ## Notions the statements below are phrased with -/

/-- The record a hit stands for: the decoding of its `_source` into a fresh `Product`
(the zero record for a hit that is not an object). -/
def hitRecord : Value → Product
  | .map hit => unmarshalProduct {} (mapIndex hit "_source")
  | _ => {}

/-- The value the decoder builds from the text `json.Marshal` writes for a record
(`marshalProduct`, see `parse_marshalProduct`): an object with the four members, the
strings as they are and the price as the `float64` nearest to it. -/
def decodedSource (r : Product) : Value :=
  .map [("name", .string r.Name), ("price", .float64 (Float64.ofInt r.Price)),
    ("tag", .string r.Tag), ("description", .string r.Description)]

/-- The document the search request is meant to be, for the query text `q`. -/
def specRequest (q : String) : Value :=
  .map [("query", .map [("multi_match", .map [("query", .string q),
    ("type", .string "phrase_prefix"),
    ("fields", .slice [.string "name", .string "tag", .string "description"])])])]

/-- A character that stands for itself inside a JSON string literal: not the double
quote, not the backslash, not a control character. -/
def plainChar (c : Char) : Prop := c.toNat ≠ 34 ∧ c.toNat ≠ 92 ∧ 32 ≤ c.toNat

instance : DecidablePred plainChar := fun c =>
  inferInstanceAs (Decidable (c.toNat ≠ 34 ∧ c.toNat ≠ 92 ∧ 32 ≤ c.toNat))

/-- The state `st` with the tokens `T` put in front of the ones it has read. -/
def LexState.prepend (T : List Token) (st : LexState) : LexState := ⟨st.mode, T ++ st.toks⟩

/-- The tokens of `requestHead`, up to the quote that opens the query. -/
def headTokens : List Token :=
  [.lbrace, .str "query", .colon, .lbrace, .str "multi_match", .colon, .lbrace,
    .str "query", .colon]

/-- The tokens of `requestTail`, after the quote that closes the query. -/
def tailTokens : List Token :=
  [.comma, .str "type", .colon, .str "phrase_prefix", .comma, .str "fields", .colon,
    .lbrack, .str "name", .comma, .str "tag", .comma, .str "description", .rbrack,
    .rbrace, .rbrace, .rbrace]

/-- The mode of the tokenizer after the digits of the whole number `n`. -/
def afterDigits (neg : Bool) (n : Nat) : LexMode :=
  .number (if n = 0 then .zero else .int) { neg := neg, coef := n }

/-- A value of the wrong JSON type for a field: not `null`, and not a string (for the
three string fields), not a number (for the price). -/
def wrongType : Field → Value → Bool
  | _, .nil => false
  | .price, .float64 _ => false
  | .price, _ => true
  | _, .string _ => false
  | _, _ => true

/-- Content of one field of a record. -/
inductive Cell where
  | text (s : String)
  | number (n : Int)
deriving DecidableEq, Repr

/-- The content of the field `f` of the record `p`. -/
def Product.cell (p : Product) : Field → Cell
  | .name => .text p.Name
  | .price => .number p.Price
  | .tag => .text p.Tag
  | .description => .text p.Description

/-- The content a member value gives the field it is decoded into, when it has the type
of the field: a string for a string field, a number that reads back as an `int` for the
price. -/
def decodedCell : Field → Value → Option Cell
  | .price, .float64 x => x.toInt?.map Cell.number
  | .name, .string s => some (.text s)
  | .tag, .string s => some (.text s)
  | .description, .string s => some (.text s)
  | _, _ => none

/-- What a member value does to the content of a field it is decoded into. -/
def cellUpdate : Field → Value → Cell → Cell
  | .price, .float64 x, c =>
    match x.toInt? with
    | some n => .number n
    | none => c
  | .name, .string s, _ => .text s
  | .tag, .string s, _ => .text s
  | .description, .string s, _ => .text s
  | _, _, c => c

/-- The only key of the object that decodes into the field `f` is the tag of `f`
itself: no key differs from it in letter case only. -/
def ExactKey (f : Field) (kvs : List (String × Value)) : Prop :=
  ∀ k ∈ kvs.map Prod.fst, fieldOf k = some f → k = f.jsonName

instance (f : Field) (kvs : List (String × Value)) : Decidable (ExactKey f kvs) :=
  inferInstanceAs (Decidable (∀ k ∈ kvs.map Prod.fst, fieldOf k = some f → k = f.jsonName))

/-- A response body of the shape `hits.hits`: an object whose `hits` member is an
object whose `hits` member is the array `hs`. -/
def HasHits (body : Body) (hs : List Value) : Prop :=
  ∃ result hits, body = .json (.map result) ∧ mapIndex result "hits" = .map hits
    ∧ mapIndex hits "hits" = .slice hs

/-- Every hit of the list is a JSON object. -/
def AllObjects (hs : List Value) : Prop := ∀ h ∈ hs, ∃ hit, h = .map hit

/-! ## Engines used as concrete inputs -/

/-- An engine that gives the same answer to every call. -/
def constClient (r : CallResult) : Client Unit :=
  { IndicesCreate := fun s _ _ => (s, r)
    Index := fun s _ _ => (s, r)
    Search := fun s _ => (s, r) }

/-- An engine that keeps the names of its indices: creating an index that exists is
answered with status 400, any other call with status 200; the transport always works. -/
def indexStore : Client (List String) :=
  { IndicesCreate := fun s name _ =>
      if name ∈ s then (s, .response ⟨400, .json (.map [("status", .float64 ⟨false, 400, 0⟩)])⟩)
      else (name :: s, .response ⟨200, .json (.map [("acknowledged", .bool true)])⟩)
    Index := fun s _ _ => (s, .response ⟨201, .json (.map [])⟩)
    Search := fun s _ =>
      (s, .response ⟨200, .json (.map [("hits", .map [("hits", .slice [])])])⟩) }

/-- A response of the shape `hits.hits` with the given hits. -/
def hitsBody (hs : List Value) : Body :=
  .json (.map [("took", .float64 ⟨false, 3, 0⟩), ("hits", .map [("hits", .slice hs)])])

/-- Two hits in the order of their scores. -/
def twoHits : List Value :=
  [.map [("_score", .float64 ⟨false, 3, -1⟩), ("_source", .map [("name", .string "b")])],
   .map [("_score", .float64 ⟨false, 1, -1⟩), ("_source", .map [("name", .string "a")])]]

/-- A stored document with two of the four fields and a key of its own. -/
def sparseSource : List (String × Value) :=
  [("name", .string "Iphone 14 Pro"), ("price", .float64 (Float64.ofInt 1000000)),
    ("color", .string "black")]

/-- A stored document whose price is a JSON string. -/
def textPriceSource : List (String × Value) :=
  [("name", .string "Iphone 14 Pro"), ("price", .string "1000000"),
    ("tag", .string "Smartphone")]

/-- A stored document with the price as a string and a second price under a key in
capitals. -/
def twoPricesText : String := "\x7b\"PRICE\":7,\"price\":\"x\"\x7d"

/-- A record whose price is `2^53 + 1`. -/
def largePriceProduct : Product :=
  { Name := "Iphone 14 Pro", Price := 9007199254740993, Tag := "Smartphone",
    Description := "Iphone 14 Pro with 1TB storage" }

/-- A response text without a `hits` member. -/
def noHitsText : String := "\x7b\"took\":1,\"timed_out\":false\x7d"

/-- The answer of the engine to a search in an index that does not exist (shortened). -/
def notFoundText : String :=
  "\x7b\"error\":\x7b\"type\":\"index_not_found_exception\",\"reason\":\"no such index [hello]\",\"index\":\"hello\"\x7d,\"status\":404\x7d"

/-- A stored document with a price beyond `2^53` and a key of its own. -/
def oddPriceText : String := "\x7b\"price\":9007199254740995,\"color\":\"black\"\x7d"

/-- An engine that cannot be reached: every call fails in the transport. -/
def downClient : Client Unit :=
  constClient (.transportError "dial tcp 127.0.0.1:9200: connect: connection refused")

/-! ## Equality of decoded values -/

mutual
theorem Value.eq_of_beq : ∀ a b : Value, Value.beq a b = true → a = b
  | .nil, .nil, _ => rfl
  | .bool a, .bool b, h => by simpa [Value.beq] using h
  | .float64 a, .float64 b, h => by simpa [Value.beq] using h
  | .string a, .string b, h => by simpa [Value.beq] using h
  | .slice xs, .slice ys, h => by
    rw [Value.eq_of_beqList xs ys (by simpa [Value.beq] using h)]
  | .map xs, .map ys, h => by
    rw [Value.eq_of_beqMembers xs ys (by simpa [Value.beq] using h)]
  | .nil, .bool _, h | .nil, .float64 _, h | .nil, .string _, h | .nil, .slice _, h
  | .nil, .map _, h => by simp [Value.beq] at h
  | .bool _, .nil, h | .bool _, .float64 _, h | .bool _, .string _, h | .bool _, .slice _, h
  | .bool _, .map _, h => by simp [Value.beq] at h
  | .float64 _, .nil, h | .float64 _, .bool _, h | .float64 _, .string _, h
  | .float64 _, .slice _, h | .float64 _, .map _, h => by simp [Value.beq] at h
  | .string _, .nil, h | .string _, .bool _, h | .string _, .float64 _, h
  | .string _, .slice _, h | .string _, .map _, h => by simp [Value.beq] at h
  | .slice _, .nil, h | .slice _, .bool _, h | .slice _, .float64 _, h
  | .slice _, .string _, h | .slice _, .map _, h => by simp [Value.beq] at h
  | .map _, .nil, h | .map _, .bool _, h | .map _, .float64 _, h | .map _, .string _, h
  | .map _, .slice _, h => by simp [Value.beq] at h
theorem Value.eq_of_beqList : ∀ xs ys : List Value, Value.beqList xs ys = true → xs = ys
  | [], [], _ => rfl
  | x :: xs, y :: ys, h => by
    simp only [Value.beqList, Bool.and_eq_true] at h
    rw [Value.eq_of_beq x y h.1, Value.eq_of_beqList xs ys h.2]
  | [], _ :: _, h | _ :: _, [], h => by simp [Value.beqList] at h
theorem Value.eq_of_beqMembers :
    ∀ xs ys : List (String × Value), Value.beqMembers xs ys = true → xs = ys
  | [], [], _ => rfl
  | (k, x) :: xs, (l, y) :: ys, h => by
    simp only [Value.beqMembers, Bool.and_eq_true, beq_iff_eq] at h
    rw [h.1.1, Value.eq_of_beq x y h.1.2, Value.eq_of_beqMembers xs ys h.2]
  | [], _ :: _, h | _ :: _, [], h => by simp [Value.beqMembers] at h
end

/-- A text decodes to `v` when the comparison of its decoding with `v` evaluates to
`true`. -/
theorem parseJson_eq (text : String) (v : Value)
    (h : (match parseJson text with
      | some w => Value.beq w v
      | none => false) = true) : parseJson text = some v := by
  cases hp : parseJson text with
  | none => rw [hp] at h; cases h
  | some w =>
    rw [hp] at h
    rw [Value.eq_of_beq w v h]

/-! ## The search loop -/

theorem searchLoop_objects (hs : List Value) (products : List Product) (h : AllObjects hs) :
    searchLoop hs products = .returned (products ++ hs.map hitRecord) := by
  induction hs generalizing products with
  | nil => simp [searchLoop]
  | cons x xs ih =>
    obtain ⟨hit, rfl⟩ := h x (List.mem_cons_self _ _)
    have hxs : AllObjects xs := fun y hy => h y (List.mem_cons_of_mem _ hy)
    simp [searchLoop, ih _ hxs, hitRecord]

theorem Search_hits {σ : Type} (es : Client σ) (s s' : σ) (query : String) (res : Response)
    (hs : List Value) (hcall : es.Search s (searchRequest query) = (s', .response res))
    (hshape : HasHits res.Body hs) (hobj : AllObjects hs) :
    Search (.ok es) s query = (s', .returned (hs.map hitRecord, none)) := by
  obtain ⟨result, hits, hbody, h1, h2⟩ := hshape
  simp [Search, NewElasticsearch, hcall, hbody, decodeResult, h1, h2,
    searchLoop_objects hs [] hobj]

theorem hitsBody_hasHits (hs : List Value) : HasHits (hitsBody hs) hs :=
  ⟨_, _, rfl, rfl, rfl⟩

theorem twoHits_objects : AllObjects twoHits := by
  intro h hh
  simp only [twoHits, List.mem_cons, List.mem_singleton, List.not_mem_nil, or_false] at hh
  rcases hh with rfl | rfl <;> exact ⟨_, rfl⟩

/-! ## C4, C8: a well-shaped response -/

/-- C4: for a response of the shape `hits.hits = [h_0, ..., h_(k-1)]` whose hits are all
JSON objects, `Search` succeeds and returns exactly `k` records, the `i`-th being the
decoding of the `_source` of `h_i`: same length, same order. -/
theorem search_preserves_hit_order {σ : Type} (es : Client σ) (s s' : σ) (query : String)
    (res : Response) (hs : List Value)
    (hcall : es.Search s (searchRequest query) = (s', .response res))
    (hshape : HasHits res.Body hs) (hobj : AllObjects hs) :
    ∃ products, Search (.ok es) s query = (s', .returned (products, none))
      ∧ products.length = hs.length
      ∧ ∀ i, products.get? i = (hs.get? i).map hitRecord := by
  refine ⟨hs.map hitRecord, Search_hits es s s' query res hs hcall hshape hobj, ?_, ?_⟩
  · simp
  · intro i
    simp [List.getElem?_map]

theorem search_preserves_hit_order_witness :
    ∃ products,
      Search (.ok (constClient (.response ⟨200, hitsBody twoHits⟩))) () "a"
        = ((), .returned (products, none))
      ∧ products.length = twoHits.length
      ∧ ∀ i, products.get? i = (twoHits.get? i).map hitRecord :=
  search_preserves_hit_order _ () () "a" _ twoHits rfl (hitsBody_hasHits _) twoHits_objects

/-- C8: when the response is well-shaped with an empty hit list, `Search` returns the
empty sequence and no error, whatever the query text. -/
theorem search_empty_hits {σ : Type} (es : Client σ) (s s' : σ) (query : String)
    (res : Response) (hcall : es.Search s (searchRequest query) = (s', .response res))
    (hshape : HasHits res.Body []) :
    ∃ products, Search (.ok es) s query = (s', .returned (products, none))
      ∧ products.length = 0 :=
  ⟨[], by
    simpa using Search_hits es s s' query res [] hcall hshape (fun _ h => by simp at h),
    rfl⟩

theorem search_empty_hits_witness :
    ∃ products, Search (.ok indexStore) ["hello"] "" = (["hello"], .returned (products, none))
      ∧ products.length = 0 :=
  search_empty_hits indexStore ["hello"] ["hello"] "" _ rfl ⟨_, _, rfl, rfl, rfl⟩

/-! ## C1: a response without `hits.hits` -/

theorem Search_shape_mismatch {σ : Type} (es : Client σ) (s s' : σ) (query : String)
    (res : Response) (result : List (String × Value))
    (hcall : es.Search s (searchRequest query) = (s', .response res))
    (hbody : decodeResult res.Body = some result)
    (hshape : ∀ hs, ¬ HasHits res.Body hs) :
    ∃ msg, Search (.ok es) s query = (s', .panicked msg) := by
  have hnil : ∀ hits, mapIndex ([] : List (String × Value)) "hits" ≠ .map hits := by
    intro hits h
    simp [mapIndex, lookupLast] at h
  have hno : ∀ hits hs, mapIndex result "hits" = .map hits →
      mapIndex hits "hits" ≠ .slice hs := by
    intro hits hs h1 h2
    cases hb : res.Body with
    | malformed => rw [hb] at hbody; simp [decodeResult] at hbody
    | json v =>
      rw [hb] at hbody
      cases v with
      | map m =>
        simp only [decodeResult, Option.some.injEq] at hbody
        subst hbody
        exact hshape hs ⟨_, _, hb, h1, h2⟩
      | nil =>
        simp only [decodeResult, Option.some.injEq] at hbody
        subst hbody
        exact hnil hits h1
      | _ => simp [decodeResult] at hbody
  cases h1 : mapIndex result "hits" with
  | map hits =>
    cases h2 : mapIndex hits "hits" with
    | slice hs => exact absurd h2 (hno hits hs h1)
    | _ => simp [Search, NewElasticsearch, hcall, hbody, h1, h2]
  | _ => simp [Search, NewElasticsearch, hcall, hbody, h1]

/-- C1 (the code departs from it): the response text `{"took":1,"timed_out":false}`
decodes as JSON and has no `hits` member; on it `Search` does not return an error: the
unchecked type assertion on `result["hits"]` panics, for every query text and every
status. -/
theorem search_missing_hits_panics (status : Nat) (query : String) :
    parseJson noHitsText
        = some (.map [("took", .float64 ⟨false, 1, 0⟩), ("timed_out", .bool false)])
      ∧ Search (.ok (constClient (.response ⟨status,
          .json (.map [("took", .float64 ⟨false, 1, 0⟩), ("timed_out", .bool false)])⟩)))
        () query
        = ((), .panicked
            "interface conversion: interface \x7b\x7d is nil, not map[string]interface \x7b\x7d") :=
  ⟨parseJson_eq _ _ (by decide), rfl⟩

/-! ## C2: the status of the response -/

set_option maxRecDepth 4000 in
/-- The answer of the engine for an index that does not exist, status 404 with its
error object as body, makes `Search` panic like any body without `hits`. -/
theorem search_index_not_found_panics :
    parseJson notFoundText
        = some (.map [("error", .map [("type", .string "index_not_found_exception"),
            ("reason", .string "no such index [hello]"), ("index", .string "hello")]),
          ("status", .float64 ⟨false, 404, 0⟩)])
      ∧ Search (.ok (constClient (.response ⟨404,
          .json (.map [("error", .map [("type", .string "index_not_found_exception"),
              ("reason", .string "no such index [hello]"), ("index", .string "hello")]),
            ("status", .float64 ⟨false, 404, 0⟩)])⟩))) () "phone"
        = ((), .panicked
            "interface conversion: interface \x7b\x7d is nil, not map[string]interface \x7b\x7d") :=
  ⟨parseJson_eq _ _ (by decide), rfl⟩

/-- C3, counterexample: with an engine that accepts the first creation of `catalog`
and answers the second with status 400, both calls of `CreateIndex` return a nil
error. -/
theorem create_twice_second_succeeds :
    CreateIndex (.ok indexStore) [] "catalog" = (["catalog"], .returned none)
      ∧ (∃ res, indexStore.IndicesCreate ["catalog"] "catalog" mapping
            = (["catalog"], .response res) ∧ res.IsError = true)
      ∧ CreateIndex (.ok indexStore) ["catalog"] "catalog" = (["catalog"], .returned none) :=
  ⟨rfl, ⟨_, rfl, by decide⟩, rfl⟩

/-- C3, amended: with an engine that accepts the first index-create call for `n` and
answers the second one with a non-success status over a working transport, the first
`CreateIndex(n)` returns no error and the second returns no error either: the status
of the answer is not inspected. -/
theorem create_twice_no_error {σ : Type} (es : Client σ) (s s1 s2 : σ) (n : String)
    (res1 res2 : Response)
    (hfirst : es.IndicesCreate s n mapping = (s1, .response res1))
    (haccept : res1.IsError = false)
    (hsecond : es.IndicesCreate s1 n mapping = (s2, .response res2))
    (hreject : res2.IsError = true) :
    CreateIndex (.ok es) s n = (s1, .returned none)
      ∧ CreateIndex (.ok es) s1 n = (s2, .returned none) := by
  simp [CreateIndex, NewElasticsearch, hfirst, hsecond]

theorem create_twice_no_error_witness :
    CreateIndex (.ok indexStore) [] "catalog" = (["catalog"], .returned none)
      ∧ CreateIndex (.ok indexStore) ["catalog"] "catalog" = (["catalog"], .returned none) :=
  create_twice_no_error indexStore [] ["catalog"] ["catalog"] "catalog"
    ⟨200, .json (.map [("acknowledged", .bool true)])⟩
    ⟨400, .json (.map [("status", .float64 ⟨false, 400, 0⟩)])⟩ rfl (by decide) rfl (by decide)

/-! ## C9: the routes -/

theorem createRoute_status {σ : Type} (d : Except String (Client σ)) (s s' : σ)
    (index : String) (err : Option String)
    (h : CreateIndex d s index = (s', .returned err)) :
    createRoute d s index = (s', .returned
      (match err with
        | some e => ⟨500, .text, e⟩
        | none => ⟨200, .text, "Hello, World!2"⟩)) := by
  cases err <;> simp [createRoute, h]

theorem indexRoute_status {σ : Type} (d : Except String (Client σ)) (s s' : σ)
    (err : Option String) (h : Index d s = (s', .returned err)) :
    indexRoute d s = (s', .returned
      (match err with
        | some e => ⟨500, .text, e⟩
        | none => ⟨200, .text, "Hello, World!3"⟩)) := by
  cases err <;> simp [indexRoute, h]

theorem searchRoute_status {σ : Type} (d : Except String (Client σ)) (s s' : σ)
    (query : String) (products : List Product) (err : Option String)
    (h : Search d s query = (s', .returned (products, err))) :
    searchRoute d s query = (s', .returned
      (match err with
        | some _ => ⟨500, .text, "Error when indexing data"⟩
        | none => ⟨200, .json, marshalProducts products ++ "\n"⟩)) := by
  cases err <;> simp [searchRoute, h]

/-- C9 (the code departs from it): when the engine cannot be reached, `Search` returns
the error `error when searching data`, and the `/search` route answers 500 with the
body `Error when indexing data`, which is not the message of that error; the `/create`
and `/index` routes answer 500 with the message of the error they got. -/
theorem search_route_drops_error_message :
    Search (.ok downClient) () "phone" = ((), .returned ([], some "error when searching data"))
      ∧ searchRoute (.ok downClient) () "phone"
        = ((), .returned ⟨500, .text, "Error when indexing data"⟩)
      ∧ createRoute (.ok downClient) () "catalog"
        = ((), .returned ⟨500, .text, "error creating index: dial tcp 127.0.0.1:9200: connect: connection refused"⟩)
      ∧ indexRoute (.ok downClient) ()
        = ((), .returned ⟨500, .text, "error indexing data: dial tcp 127.0.0.1:9200: connect: connection refused"⟩) := by
  refine ⟨rfl, rfl, ?_, ?_⟩ <;> decide

/-! ## C6: the request body as JSON text -/

theorem lexRun_append (st : LexState) (a b : List Char) :
    lexRun st (a ++ b) = (lexRun st a).bind (fun st' => lexRun st' b) := by
  induction a generalizing st with
  | nil => simp [lexRun]
  | cons c cs ih =>
    simp only [List.cons_append, lexRun]
    cases h : lexStep st c with
    | none => simp
    | some st' => simpa using ih st'

theorem lexRun_plain (toks : List Token) (q acc : List Char) (h : ∀ c ∈ q, plainChar c) :
    lexRun ⟨.string acc, toks⟩ q = some ⟨.string (acc ++ q), toks⟩ := by
  induction q generalizing acc with
  | nil => simp [lexRun]
  | cons c cs ih =>
    obtain ⟨h1, h2, h3⟩ := h c (List.mem_cons_self _ _)
    have hstep : lexStep ⟨.string acc, toks⟩ c = some ⟨.string (acc ++ [c]), toks⟩ := by
      simp [lexStep, modeStep, h1, h2, Nat.not_lt.mpr h3]
    simp only [lexRun, hstep]
    rw [ih (acc ++ [c]) (fun d hd => h d (List.mem_cons_of_mem _ hd))]
    simp

theorem lexStep_prepend (T : List Token) (st : LexState) (c : Char) :
    lexStep (st.prepend T) c = (lexStep st c).map (LexState.prepend T) := by
  unfold lexStep LexState.prepend
  cases modeStep st.mode c with
  | none => rfl
  | some r => simp [List.append_assoc]

theorem lexRun_prepend (T : List Token) (st : LexState) (cs : List Char) :
    lexRun (st.prepend T) cs = (lexRun st cs).map (LexState.prepend T) := by
  induction cs generalizing st with
  | nil => simp [lexRun]
  | cons c cs ih =>
    simp only [lexRun, lexStep_prepend]
    cases lexStep st c with
    | none => simp
    | some st' => simpa using ih st'

theorem lex_requestHead :
    lexRun ⟨.top, []⟩ requestHead.data = some ⟨.string [], headTokens⟩ := by
  decide

theorem lex_requestTail : ∃ rest, requestTail.data = Char.ofNat 34 :: rest ∧
    lexRun ⟨.top, []⟩ rest = some ⟨.top, tailTokens⟩ :=
  ⟨requestTail.data.tail, by decide, by decide⟩

theorem lex_request (q : String) (h : ∀ c ∈ q.data, plainChar c) :
    lex (searchRequestBody q).data = some (headTokens ++ [.str q] ++ tailTokens) := by
  obtain ⟨rest, hrest, hlex⟩ := lex_requestTail
  have hq : lexStep ⟨.string q.data, headTokens⟩ (Char.ofNat 34)
      = some (LexState.prepend (headTokens ++ [.str q]) ⟨.top, []⟩) := by
    simp [lexStep, modeStep, LexState.prepend]
  unfold lex searchRequestBody
  simp only [String.data_append]
  rw [List.append_assoc, lexRun_append, lex_requestHead]
  simp only [Option.bind]
  rw [lexRun_append, lexRun_plain _ _ _ h]
  simp only [Option.bind, List.nil_append]
  rw [hrest]
  simp only [lexRun, hq]
  rw [lexRun_prepend, hlex]
  simp [LexState.prepend, lexEnd]

/-- C6, counterexample: for the query text made of one double quote, the request body
is not a JSON document at all (the quote closes the string literal), so parsing it does
not yield the intended object. -/
theorem request_body_quote_not_json :
    parseJson (searchRequest (String.mk [Char.ofNat 34])).Body = none
      ∧ ¬ (parseJson (searchRequest (String.mk [Char.ofNat 34])).Body
        = some (specRequest (String.mk [Char.ofNat 34]))) := by
  have h : parseJson (searchRequest (String.mk [Char.ofNat 34])).Body = none :=
    Option.isNone_iff_eq_none.mp (by decide)
  exact ⟨h, by rw [h]; exact fun h' => Option.noConfusion h'⟩

/-- C6, amended: for every query text without a double quote, a backslash or a control
character (the empty text included), the request body `Search` sends is a JSON document
and parsing it yields exactly the object
`{"query":{"multi_match":{"query": q, "type":"phrase_prefix",
"fields":["name","tag","description"]}}}`, with no other member. -/
theorem request_body_parses (q : String) (h : ∀ c ∈ q.data, plainChar c) :
    parseJson (searchRequest q).Body = some (specRequest q) := by
  show parseJson (searchRequestBody q) = some (specRequest q)
  unfold parseJson
  rw [lex_request q h]
  rfl

theorem request_body_parses_witness :
    parseJson (searchRequest "Iphone 14").Body = some (specRequest "Iphone 14") :=
  request_body_parses "Iphone 14" (by decide)

/-! ## Integers through `float64` -/

theorem bitLenAux_le (fuel : Nat) : ∀ n k, n < 2 ^ k → bitLenAux fuel n ≤ k := by
  induction fuel with
  | zero => intro n k _; simp [bitLenAux]
  | succ f ih =>
    intro n k h
    unfold bitLenAux
    split_ifs with h0
    · exact Nat.zero_le _
    · cases k with
      | zero => simp at h; exact absurd h h0
      | succ k =>
        have : n / 2 < 2 ^ k := by
          rw [Nat.div_lt_iff_lt_mul (by norm_num)]
          simpa [pow_succ] using h
        exact Nat.succ_le_succ (ih _ _ this)

theorem shortestAux_range (a lo hi : Nat) (hlo : lo ≤ a) (hhi : a ≤ hi) (fuel : Nat) :
    ∀ p best, 0 < p → lo ≤ best → best ≤ hi →
      lo ≤ shortestAux a lo hi fuel p best ∧ shortestAux a lo hi fuel p best ≤ hi := by
  induction fuel with
  | zero => intro p best _ h1 h2; exact ⟨h1, h2⟩
  | succ f ih =>
    intro p best hp h1 h2
    have hdown : a / p * p ≤ a := Nat.div_mul_le_self a p
    have hup : a < a / p * p + p := Nat.lt_div_mul_add hp
    have hp10 : 0 < p * 10 := by omega
    unfold shortestAux
    simp only
    split_ifs with c1 c2 c3 c4 c5 c6
    all_goals first
      | exact ⟨h1, h2⟩
      | (apply ih _ _ hp10 <;> omega)

theorem shortestDecimal_small (a : Nat) (h : a < 2 ^ 53) : shortestDecimal a = a := by
  have hb : bitLen a ≤ 53 := bitLenAux_le a a 53 h
  have hr : roundRange a = (a, a) := by simp [roundRange, hb]
  have := shortestAux_range a a a (le_refl _) (le_refl _) (bitLen a + 1) 10 a (by norm_num)
    (le_refl _) (le_refl _)
  unfold shortestDecimal
  rw [hr]
  exact le_antisymm this.2 this.1

theorem toInt_ofInt (n : Int) (h : n.natAbs ≤ 2 ^ 53) :
    (Float64.ofInt n).toInt? = some n := by
  rcases Nat.lt_or_eq_of_le h with hlt | heq
  · have hb : bitLen n.natAbs ≤ 53 := bitLenAux_le _ _ 53 hlt
    have hof : Float64.ofInt n = ⟨decide (n < 0), n.natAbs, 0⟩ := by
      simp [Float64.ofInt, Float64.round, hb]
    have hlt63 : n.natAbs < 2 ^ 63 := lt_trans hlt (by norm_num)
    rw [hof]
    simp only [Float64.toInt?, Float64.natAbs?, le_refl, if_true, Int.toNat_zero, pow_zero,
      mul_one, shortestDecimal_small _ hlt]
    by_cases hneg : n < 0
    · simp only [hneg, decide_True, if_true, le_of_lt hlt63]
      congr 1
      omega
    · simp only [hneg, decide_False, hlt63, if_true, Bool.false_eq_true, if_false]
      congr 1
      omega
  · rcases Int.natAbs_eq n with hn | hn
    · rw [hn, heq]; decide
    · rw [hn, heq]; decide

/-! ## Decoding an object into a record, field by field -/

theorem setField_cell_same (p : Product) (f : Field) (v : Value) :
    (setField p f v).cell f = cellUpdate f v (p.cell f) := by
  cases f <;> cases v <;> simp [setField, cellUpdate, Product.cell]
  case price.float64 x => cases x.toInt? <;> simp [Product.cell]

theorem setField_cell_other (p : Product) (f g : Field) (v : Value) (h : f ≠ g) :
    (setField p f v).cell g = p.cell g := by
  cases f <;> cases g <;> cases v <;> simp_all [setField, Product.cell]
  all_goals (rename_i x; cases x.toInt? <;> simp)

theorem decodeMember_cell (m : List (String × Value)) (p : Product) (k : String) (g : Field) :
    (decodeMember m p k).cell g
      = if fieldOf k = some g then cellUpdate g (mapIndex m k) (p.cell g) else p.cell g := by
  unfold decodeMember
  cases hk : fieldOf k with
  | none => simp
  | some f =>
    by_cases hfg : f = g
    · subst hfg; simp [setField_cell_same]
    · simp [hfg, setField_cell_other _ _ _ _ hfg]

theorem cellUpdate_idem (g : Field) (v : Value) (c : Cell) :
    cellUpdate g v (cellUpdate g v c) = cellUpdate g v c := by
  cases g <;> cases v <;> simp [cellUpdate]
  case price.float64 x => cases x.toInt? <;> simp

theorem cellUpdate_eq (g : Field) (v : Value) (c : Cell) :
    cellUpdate g v c = (decodedCell g v).getD c := by
  cases g <;> cases v <;> simp [cellUpdate, decodedCell]
  case price.float64 x => cases x.toInt? <;> simp

theorem foldl_decodeMember_cell (m : List (String × Value)) (g : Field) (keys : List String) :
    ∀ p : Product, (keys.foldl (decodeMember m) p).cell g
      = keys.foldl
          (fun c k => if fieldOf k = some g then cellUpdate g (mapIndex m k) c else c)
          (p.cell g) := by
  induction keys with
  | nil => intro p; rfl
  | cons k ks ih =>
    intro p
    simp only [List.foldl_cons, ih, decodeMember_cell]

theorem foldl_cell_same (m : List (String × Value)) (g : Field) (v : Value)
    (keys : List String) (h : ∀ k ∈ keys, fieldOf k = some g → mapIndex m k = v) :
    ∀ c : Cell,
      keys.foldl
          (fun c k => if fieldOf k = some g then cellUpdate g (mapIndex m k) c else c) c
        = if ∃ k ∈ keys, fieldOf k = some g then cellUpdate g v c else c := by
  induction keys with
  | nil => intro c; simp
  | cons k ks ih =>
    intro c
    have hks : ∀ k' ∈ ks, fieldOf k' = some g → mapIndex m k' = v :=
      fun k' hk' => h k' (List.mem_cons_of_mem _ hk')
    simp only [List.foldl_cons, ih hks]
    by_cases hk : fieldOf k = some g
    · have hv : mapIndex m k = v := h k (List.mem_cons_self _ _) hk
      have hex : ∃ k' ∈ k :: ks, fieldOf k' = some g := ⟨k, List.mem_cons_self _ _, hk⟩
      simp only [hk, if_true, hv, cellUpdate_idem, hex]
      split_ifs <;> rfl
    · simp only [hk, if_false, List.exists_mem_cons_iff, false_or]

theorem foldl_cell_inert (m : List (String × Value)) (g : Field) (keys : List String)
    (h : ∀ k ∈ keys, fieldOf k = some g → decodedCell g (mapIndex m k) = none) :
    ∀ c : Cell,
      keys.foldl
          (fun c k => if fieldOf k = some g then cellUpdate g (mapIndex m k) c else c) c
        = c := by
  induction keys with
  | nil => intro c; rfl
  | cons k ks ih =>
    intro c
    have hks : ∀ k' ∈ ks, fieldOf k' = some g → decodedCell g (mapIndex m k') = none :=
      fun k' hk' => h k' (List.mem_cons_of_mem _ hk')
    simp only [List.foldl_cons, ih hks]
    by_cases hk : fieldOf k = some g
    · simp only [hk, if_true, cellUpdate_eq, h k (List.mem_cons_self _ _) hk, Option.getD_none]
    · simp only [hk, if_false]

theorem mem_sortedKeys (m : List (String × Value)) (k : String) :
    k ∈ sortedKeys m ↔ k ∈ m.map Prod.fst := by
  unfold sortedKeys
  rw [(List.perm_insertionSort KeyLe _).mem_iff, List.mem_dedup]

theorem lookupLast_eq_none (m : List (String × Value)) (k : String) :
    lookupLast m k = none ↔ k ∉ m.map Prod.fst := by
  induction m with
  | nil => simp [lookupLast]
  | cons kv rest ih =>
    obtain ⟨k', v⟩ := kv
    unfold lookupLast
    cases hrest : lookupLast rest k with
    | some w =>
      have : k ∈ rest.map Prod.fst := by
        by_contra hc
        rw [ih.mpr hc] at hrest
        cases hrest
      simp [this]
    | none =>
      have hnot : k ∉ rest.map Prod.fst := ih.mp hrest
      by_cases hkk : k' = k
      · simp [hkk]
      · simp only [hkk, if_false, List.map_cons, List.mem_cons, true_iff, not_or]
        exact ⟨fun h => hkk h.symm, hnot⟩

theorem fieldOf_jsonName (g : Field) : fieldOf g.jsonName = some g := by
  cases g <;> decide

/-- The field `g` after decoding an object whose only key for `g` is its tag: what the
member under the tag makes of it, or what it was when there is no such member. -/
theorem unmarshal_cell (p : Product) (kvs : List (String × Value)) (g : Field)
    (hexact : ExactKey g kvs) :
    (unmarshalProduct p (.map kvs)).cell g
      = match lookupLast kvs g.jsonName with
        | some v => cellUpdate g v (p.cell g)
        | none => p.cell g := by
  have hsame : ∀ k ∈ sortedKeys kvs, fieldOf k = some g →
      mapIndex kvs k = mapIndex kvs g.jsonName := by
    intro k hk hf
    rw [hexact k ((mem_sortedKeys kvs k).mp hk) hf]
  simp only [unmarshalProduct, foldl_decodeMember_cell,
    foldl_cell_same kvs g _ (sortedKeys kvs) hsame]
  cases hl : lookupLast kvs g.jsonName with
  | none =>
    have hnot : g.jsonName ∉ kvs.map Prod.fst := (lookupLast_eq_none kvs _).mp hl
    have : ¬ ∃ k ∈ sortedKeys kvs, fieldOf k = some g := by
      rintro ⟨k, hk, hf⟩
      have hk' := (mem_sortedKeys kvs k).mp hk
      rw [hexact k hk' hf] at hk'
      exact hnot hk'
    simp [this]
  | some v =>
    have hin : g.jsonName ∈ kvs.map Prod.fst := by
      by_contra hc
      rw [(lookupLast_eq_none kvs _).mpr hc] at hl
      cases hl
    have : ∃ k ∈ sortedKeys kvs, fieldOf k = some g :=
      ⟨g.jsonName, (mem_sortedKeys kvs _).mpr hin, fieldOf_jsonName g⟩
    simp [this, mapIndex, hl]

/-- The field `g` stays as it was when no member that decodes into it has a value of
its type. -/
theorem unmarshal_cell_none (p : Product) (kvs : List (String × Value)) (g : Field)
    (hnone : ∀ k ∈ kvs.map Prod.fst, fieldOf k = some g →
      decodedCell g (mapIndex kvs k) = none) :
    (unmarshalProduct p (.map kvs)).cell g = p.cell g := by
  simp only [unmarshalProduct, foldl_decodeMember_cell]
  exact foldl_cell_inert kvs g (sortedKeys kvs)
    (fun k hk hf => hnone k ((mem_sortedKeys kvs k).mp hk) hf) _

theorem foldl_cell_decoded (m : List (String × Value)) (g : Field) (c : Cell)
    (keys : List String)
    (h : ∃ k ∈ keys, fieldOf k = some g ∧ (decodedCell g (mapIndex m k)).isSome = true) :
    ∃ k ∈ keys, fieldOf k = some g ∧ decodedCell g (mapIndex m k)
      = some (keys.foldl
          (fun c k => if fieldOf k = some g then cellUpdate g (mapIndex m k) c else c) c) := by
  induction keys using List.reverseRecOn with
  | nil => simp at h
  | append_singleton ks k ih =>
    simp only [List.foldl_append, List.foldl_cons, List.foldl_nil]
    by_cases hk : fieldOf k = some g ∧ (decodedCell g (mapIndex m k)).isSome = true
    · obtain ⟨hf, hsome⟩ := hk
      obtain ⟨d, hd⟩ := Option.isSome_iff_exists.mp hsome
      exact ⟨k, by simp, hf, by simp [hf, cellUpdate_eq, hd]⟩
    · have hks : ∃ k' ∈ ks, fieldOf k' = some g
          ∧ (decodedCell g (mapIndex m k')).isSome = true := by
        obtain ⟨k', hk', hf, hsome⟩ := h
        rcases List.mem_append.mp hk' with hin | hin
        · exact ⟨k', hin, hf, hsome⟩
        · rw [List.mem_singleton] at hin
          subst hin
          exact absurd ⟨hf, hsome⟩ hk
      obtain ⟨k', hk', hf, heq⟩ := ih hks
      refine ⟨k', List.mem_append_left _ hk', hf, ?_⟩
      rw [heq]
      by_cases hfk : fieldOf k = some g
      · have hnone : decodedCell g (mapIndex m k) = none := by
          cases hd : decodedCell g (mapIndex m k) with
          | none => rfl
          | some d => exact absurd ⟨hfk, by simp [hd]⟩ hk
        simp [hfk, cellUpdate_eq, hnone]
      · simp [hfk]

/-- A field that has a correctly typed member holds the decoded value of such a
member. -/
theorem unmarshal_cell_decoded (p : Product) (kvs : List (String × Value)) (g : Field)
    (h : ∃ k ∈ kvs.map Prod.fst, fieldOf k = some g
      ∧ (decodedCell g (mapIndex kvs k)).isSome = true) :
    ∃ k ∈ kvs.map Prod.fst, fieldOf k = some g
      ∧ decodedCell g (mapIndex kvs k) = some ((unmarshalProduct p (.map kvs)).cell g) := by
  obtain ⟨k, hk, hf, hsome⟩ := h
  obtain ⟨k', hk', hf', heq⟩ := foldl_cell_decoded kvs g (p.cell g) (sortedKeys kvs)
    ⟨k, (mem_sortedKeys kvs k).mpr hk, hf, hsome⟩
  refine ⟨k', (mem_sortedKeys kvs k').mp hk', hf', ?_⟩
  simp only [unmarshalProduct, foldl_decodeMember_cell]
  exact heq

theorem Product.eq_of_cells (p q : Product) (h : ∀ f, p.cell f = q.cell f) : p = q := by
  have h1 := h .name
  have h2 := h .price
  have h3 := h .tag
  have h4 := h .description
  cases p; cases q
  simp only [Product.cell, Cell.text.injEq, Cell.number.injEq] at h1 h2 h3 h4
  simp [h1, h2, h3, h4]

theorem exactKey_decodedSource (r : Product) (g : Field) :
    ∀ kvs, decodedSource r = .map kvs → ExactKey g kvs := by
  intro kvs hk k hmem hf
  simp only [decodedSource, Value.map.injEq] at hk
  subst hk
  simp only [List.map_cons, List.map_nil, List.mem_cons, List.mem_singleton,
    List.not_mem_nil, or_false] at hmem
  rcases hmem with rfl | rfl | rfl | rfl <;> revert hf <;> cases g <;> decide

theorem unmarshal_decodedSource (r : Product) (h : r.Price.natAbs ≤ 2 ^ 53) :
    unmarshalProduct {} (decodedSource r) = r := by
  apply Product.eq_of_cells
  intro g
  show (unmarshalProduct {} (.map _)).cell g = _
  rw [unmarshal_cell _ _ g (exactKey_decodedSource r g _ rfl)]
  cases g <;> simp [lookupLast, Field.jsonName, cellUpdate, Product.cell, toInt_ofInt _ h]

/-! ## Reading back the text of a record -/

theorem digitChar_toNat (d : Nat) (h : d < 10) : (digitChar d).toNat = 48 + d := by
  interval_cases d <;> decide

theorem lexStep_digit (neg : Bool) (T : List Token) (m d : Nat) (hm : m ≠ 0) (hd : d < 10) :
    lexStep ⟨afterDigits neg m, T⟩ (digitChar d) = some ⟨afterDigits neg (m * 10 + d), T⟩ := by
  have hne : m * 10 + d ≠ 0 := by omega
  have h57 : 48 + d ≤ 57 := by omega
  simp [lexStep, modeStep, afterDigits, hm, hne, isNumChar, numStep, numAdd,
    digitChar_toNat d hd, h57]

theorem lexRun_digits (S : LexState) (neg : Bool) (T : List Token)
    (hbase : ∀ d, d < 10 → lexStep S (digitChar d) = some ⟨afterDigits neg d, T⟩)
    (fuel : Nat) :
    ∀ n rest, (n ≤ fuel ∨ n < 10) →
      lexRun S (natDigitsAux fuel n ++ rest) = lexRun ⟨afterDigits neg n, T⟩ rest := by
  induction fuel with
  | zero =>
    intro n rest h
    have hn : n < 10 := by omega
    simp [natDigitsAux, lexRun, hbase n hn]
  | succ f ih =>
    intro n rest h
    unfold natDigitsAux
    split_ifs with hn
    · simp [lexRun, hbase n hn]
    · have hq : n / 10 ≤ f ∨ n / 10 < 10 := by omega
      have hq0 : n / 10 ≠ 0 := by omega
      have hd : n % 10 < 10 := Nat.mod_lt _ (by norm_num)
      rw [List.append_assoc, ih (n / 10) _ hq]
      simp only [List.singleton_append, lexRun, lexStep_digit neg T _ _ hq0 hd]
      have : n / 10 * 10 + n % 10 = n := by omega
      rw [this]
      rfl

theorem lexStep_top_digit (T : List Token) (d : Nat) (hd : d < 10) :
    lexStep ⟨.top, T⟩ (digitChar d) = some ⟨afterDigits false d, T⟩ := by
  interval_cases d <;> simp [lexStep, modeStep, topStep, afterDigits, digitChar]

theorem lexStep_minus_digit (T : List Token) (d : Nat) (hd : d < 10) :
    lexStep ⟨.number .minus { neg := true }, T⟩ (digitChar d)
      = some ⟨afterDigits true d, T⟩ := by
  interval_cases d <;>
    simp [lexStep, modeStep, afterDigits, digitChar, isNumChar, numStep, numAdd]

theorem pow75_lt_float64Limit : (2 : Nat) ^ 75 < float64Limit := by
  have h1 : (2 : Nat) ^ 75 < 2 ^ 256 := Nat.pow_lt_pow_right Nat.one_lt_two (by decide)
  have h2 : (2 : Nat) ^ 256 * 1 ≤ 2 ^ 256 * (2 ^ 256 * 2 ^ 256 * 2 ^ 256) :=
    Nat.mul_le_mul_left _ (Nat.one_le_iff_ne_zero.mpr (by positivity))
  unfold float64Limit
  rw [Nat.mul_assoc, Nat.mul_assoc, ← Nat.mul_assoc (2 ^ 256) (2 ^ 256) (2 ^ 256)]
  omega

theorem small_lt_float64Limit (a b : Nat) (ha : a ≤ 2 ^ 64) (hb : b ≤ 2 ^ 11) :
    a * b < float64Limit := by
  calc a * b ≤ 2 ^ 64 * 2 ^ 11 := Nat.mul_le_mul ha hb
    _ = 2 ^ 75 := by norm_num
    _ < float64Limit := pow75_lt_float64Limit

theorem round_fits (neg : Bool) (n : Nat) (h : n < 2 ^ 64) :
    Float64.ofLiteral { neg := neg, coef := n } = some (Float64.round neg n) := by
  have hb : bitLen n ≤ 64 := bitLenAux_le n n 64 h
  have hfit : ¬ (0 ≤ (Float64.round neg n).exp
      ∧ float64Limit ≤ (Float64.round neg n).mant * 2 ^ (Float64.round neg n).exp.toNat) := by
    rintro ⟨_, hbig⟩
    unfold Float64.round at hbig
    simp only at hbig
    have hp : 2 ^ (bitLen n - 53) ≤ 2 ^ 11 :=
      Nat.pow_le_pow_right (by norm_num) (by omega)
    have hq : n / 2 ^ (bitLen n - 53) + 1 ≤ 2 ^ 64 :=
      Nat.succ_le_of_lt (lt_of_le_of_lt (Nat.div_le_self _ _) h)
    split_ifs at hbig with h53 hup
    · simp only [Int.toNat_zero, pow_zero] at hbig
      exact absurd (small_lt_float64Limit n 1 (le_of_lt h) (by norm_num)) (not_lt.mpr hbig)
    · simp only [Int.toNat_ofNat] at hbig
      exact absurd (small_lt_float64Limit _ _ hq hp) (not_lt.mpr hbig)
    · simp only [Int.toNat_ofNat] at hbig
      exact absurd (small_lt_float64Limit _ _ (le_trans (Nat.le_succ _) hq) hp)
        (not_lt.mpr hbig)
  simp only [Float64.ofLiteral, Bool.false_eq_true, if_false, Nat.cast_zero, sub_zero,
    le_refl, if_true, Int.toNat_zero, pow_zero, mul_one]
  rw [if_neg hfit]

theorem lexStep_number_comma (neg : Bool) (T : List Token) (n : Nat) (h : n < 2 ^ 64) :
    lexStep ⟨afterDigits neg n, T⟩ (Char.ofNat 44)
      = some ⟨.top, T ++ [.num (Float64.round neg n), .comma]⟩ := by
  have htok : numToken { neg := neg, coef := n } = some (.num (Float64.round neg n)) := by
    unfold numToken
    rw [round_fits neg n h]
  have hcomma : isNumChar (Char.ofNat 44) = false := by decide
  have htop : topStep (Char.ofNat 44) = some (.top, [.comma]) := by decide
  by_cases hn : n = 0
  · subst hn
    simp only [lexStep, modeStep, afterDigits, if_true, hcomma, Bool.false_eq_true,
      if_false, numFinal, htok, endToken, htop]
  · simp only [lexStep, modeStep, afterDigits, hn, if_false, hcomma, Bool.false_eq_true,
      numFinal, if_true, htok, endToken, htop]

/-- The text of an integer followed by a comma is read as one number token, the double
nearest to the integer, and the comma. -/
theorem lexRun_intText (T : List Token) (n : Int) (rest : List Char)
    (h : n.natAbs < 2 ^ 64) :
    lexRun ⟨.top, T⟩ ((intText n).data ++ Char.ofNat 44 :: rest)
      = lexRun ⟨.top, T ++ [.num (Float64.ofInt n), .comma]⟩ rest := by
  unfold intText Float64.ofInt
  by_cases hneg : n < 0
  · have hminus : lexStep ⟨.top, T⟩ (Char.ofNat 45)
        = some ⟨.number .minus { neg := true }, T⟩ := by
      simp [lexStep, modeStep, topStep]
    simp only [hneg, if_true, List.cons_append, lexRun, hminus, decide_True]
    rw [natDigits, lexRun_digits _ true T (lexStep_minus_digit T) _ _ _ (Or.inl (le_refl _))]
    simp only [lexRun, lexStep_number_comma true T _ h]
  · simp only [hneg, if_false, decide_False]
    rw [natDigits, lexRun_digits _ false T (lexStep_top_digit T) _ _ _ (Or.inl (le_refl _))]
    simp only [lexRun, lexStep_number_comma false T _ h]

theorem hexVal_hexDigit (d : Nat) (h : d < 16) : hexVal (hexDigit d) = some d := by
  interval_cases d <;> decide

theorem lexStep_backslash (T : List Token) (acc : List Char) :
    lexStep ⟨.string acc, T⟩ (Char.ofNat 92) = some ⟨.escape acc, T⟩ := by
  simp [lexStep, modeStep]

theorem lexStep_short_escape (T : List Token) (acc : List Char) (e n : Nat)
    (h : (e, n) ∈ [(34, 34), (92, 92), (98, 8), (102, 12), (110, 10), (114, 13), (116, 9)]) :
    lexStep ⟨.escape acc, T⟩ (Char.ofNat e) = some ⟨.string (acc ++ [Char.ofNat n]), T⟩ := by
  simp only [List.mem_cons, Prod.mk.injEq, List.mem_singleton, List.not_mem_nil, or_false] at h
  rcases h with ⟨rfl, rfl⟩ | ⟨rfl, rfl⟩ | ⟨rfl, rfl⟩ | ⟨rfl, rfl⟩ | ⟨rfl, rfl⟩ | ⟨rfl, rfl⟩
    | ⟨rfl, rfl⟩ <;> simp [lexStep, modeStep]

theorem lexStep_hex (T : List Token) (acc : List Char) (ds : List Nat) (d : Nat)
    (hd : d < 16) (hds : ds.length < 3) :
    lexStep ⟨.unicode acc none ds, T⟩ (hexDigit d)
      = some ⟨.unicode acc none (ds ++ [d]), T⟩ := by
  simp only [lexStep, modeStep, hexVal_hexDigit d hd]
  match ds, hds with
  | [], _ => simp
  | [_], _ => simp
  | [_, _], _ => simp

theorem lexStep_hex_last (T : List Token) (acc : List Char) (d1 d2 d3 d : Nat) (hd : d < 16)
    (hn : d1 * 4096 + d2 * 256 + d3 * 16 + d < 0xD800) :
    lexStep ⟨.unicode acc none [d1, d2, d3], T⟩ (hexDigit d)
      = some ⟨.string (acc ++ [Char.ofNat (d1 * 4096 + d2 * 256 + d3 * 16 + d)]), T⟩ := by
  have ha : ¬ (0xD800 ≤ d1 * 4096 + d2 * 256 + d3 * 16 + d
      ∧ d1 * 4096 + d2 * 256 + d3 * 16 + d < 0xDC00) := by omega
  have hb : ¬ (0xDC00 ≤ d1 * 4096 + d2 * 256 + d3 * 16 + d
      ∧ d1 * 4096 + d2 * 256 + d3 * 16 + d < 0xE000) := by omega
  simp only [lexStep, modeStep, hexVal_hexDigit d hd, unicodeDone, ha, hb, if_false]
  simp

theorem lexRun_unicodeEscape (T : List Token) (acc rest : List Char) (n : Nat)
    (h : n < 0xD800) :
    lexRun ⟨.string acc, T⟩ (unicodeEscape n ++ rest)
      = lexRun ⟨.string (acc ++ [Char.ofNat n]), T⟩ rest := by
  have hsum : n / 4096 % 16 * 4096 + n / 256 % 16 * 256 + n / 16 % 16 * 16 + n % 16 = n := by
    omega
  have hu : lexStep ⟨.escape acc, T⟩ (Char.ofNat 117) = some ⟨.unicode acc none [], T⟩ := by
    simp [lexStep, modeStep]
  have h16 : ∀ m : Nat, m % 16 < 16 := fun m => Nat.mod_lt _ (by norm_num)
  simp only [unicodeEscape, List.cons_append, List.nil_append, lexRun, lexStep_backslash, hu,
    lexStep_hex T acc [] _ (h16 _) (by simp),
    lexStep_hex T acc [_] _ (h16 _) (by simp),
    lexStep_hex T acc [_, _] _ (h16 _) (by simp),
    lexStep_hex_last T acc _ _ _ _ (h16 _) (by rw [hsum]; exact h), hsum]
  rfl

theorem lexRun_escapeRune (T : List Token) (acc rest : List Char) (c : Char) :
    lexRun ⟨.string acc, T⟩ (escapeRune c ++ rest) = lexRun ⟨.string (acc ++ [c]), T⟩ rest := by
  have hc : c = Char.ofNat c.toNat := (Char.ofNat_toNat c).symm
  have hshort : ∀ e n, (e, n) ∈ [(34, 34), (92, 92), (98, 8), (102, 12), (110, 10),
      (114, 13), (116, 9)] → c.toNat = n →
      lexRun ⟨.string acc, T⟩ ([Char.ofNat 92, Char.ofNat e] ++ rest)
        = lexRun ⟨.string (acc ++ [c]), T⟩ rest := by
    intro e n hmem hn
    simp only [List.cons_append, List.nil_append, lexRun, lexStep_backslash,
      lexStep_short_escape T acc e n hmem]
    rw [hc, hn]
    rfl
  unfold escapeRune
  split_ifs with h34 h92 h8 h12 h10 h13 h9 hu
  · exact hshort 34 34 (by simp) h34
  · exact hshort 92 92 (by simp) h92
  · exact hshort 98 8 (by simp) h8
  · exact hshort 102 12 (by simp) h12
  · exact hshort 110 10 (by simp) h10
  · exact hshort 114 13 (by simp) h13
  · exact hshort 116 9 (by simp) h9
  · have hlt : c.toNat < 0xD800 := by omega
    rw [lexRun_unicodeEscape T acc rest _ hlt, ← hc]
  · have h32 : ¬ c.toNat < 32 := by omega
    simp [lexRun, lexStep, modeStep, h34, h92, h32]

theorem lexRun_escaped (T : List Token) (rest : List Char) (s : List Char) :
    ∀ acc, lexRun ⟨.string acc, T⟩ ((s.map escapeRune).flatten ++ rest)
      = lexRun ⟨.string (acc ++ s), T⟩ rest := by
  induction s with
  | nil => intro acc; simp
  | cons c cs ih =>
    intro acc
    simp only [List.map_cons, List.flatten_cons, List.append_assoc]
    rw [lexRun_escapeRune, ih]
    simp

/-- A string literal as `json.Marshal` writes it is read back as the string. -/
theorem lexRun_marshalString (T : List Token) (rest : List Char) (s : String) :
    lexRun ⟨.top, T⟩ ((marshalString s).data ++ rest) = lexRun ⟨.top, T ++ [.str s]⟩ rest := by
  have hq : (Char.ofNat 34).toNat = 34 := by decide
  have hopen : lexStep ⟨.top, T⟩ (Char.ofNat 34) = some ⟨.string [], T⟩ := by
    simp [lexStep, modeStep, topStep]
  have hclose : lexStep ⟨.string s.data, T⟩ (Char.ofNat 34) = some ⟨.top, T ++ [.str s]⟩ := by
    simp [lexStep, modeStep]
  have hdata : (marshalString s).data ++ rest
      = Char.ofNat 34 :: ((s.data.map escapeRune).flatten ++ Char.ofNat 34 :: rest) := by
    simp [marshalString]
  rw [hdata]
  simp only [lexRun, hopen]
  rw [lexRun_escaped]
  simp only [List.nil_append, lexRun, hclose]

theorem lexRun_fixed (seg : List Char) (toks : List Token)
    (h : lexRun ⟨.top, []⟩ seg = some ⟨.top, toks⟩) (T : List Token) (rest : List Char) :
    lexRun ⟨.top, T⟩ (seg ++ rest) = lexRun ⟨.top, T ++ toks⟩ rest := by
  have hT : (⟨.top, T⟩ : LexState) = LexState.prepend T ⟨.top, []⟩ := by
    simp [LexState.prepend]
  rw [lexRun_append, hT, lexRun_prepend, h]
  simp [LexState.prepend]

theorem lex_marshalProduct (p : Product) (h : p.Price.natAbs < 2 ^ 64) :
    lex (marshalProduct p).data
      = some [.lbrace, .str "name", .colon, .str p.Name, .comma, .str "price", .colon,
          .num (Float64.ofInt p.Price), .comma, .str "tag", .colon, .str p.Tag, .comma,
          .str "description", .colon, .str p.Description, .rbrace] := by
  have h1 : lexRun ⟨.top, []⟩ nameKey.data = some ⟨.top, [.lbrace, .str "name", .colon]⟩ := by
    decide
  have h2 : lexRun ⟨.top, []⟩ priceKey.data = some ⟨.top, [.comma, .str "price", .colon]⟩ := by
    decide
  obtain ⟨tagRest, h3, h3'⟩ : ∃ r, tagKey.data = Char.ofNat 44 :: r
      ∧ lexRun ⟨.top, []⟩ r = some ⟨.top, [.str "tag", .colon]⟩ :=
    ⟨tagKey.data.tail, by decide, by decide⟩
  have h4 : lexRun ⟨.top, []⟩ descriptionKey.data
      = some ⟨.top, [.comma, .str "description", .colon]⟩ := by
    decide
  have h5 : lexRun ⟨.top, []⟩ "\x7d".data = some ⟨.top, [.rbrace]⟩ := by
    decide
  have hdata : (marshalProduct p).data
      = nameKey.data ++ ((marshalString p.Name).data ++ (priceKey.data
        ++ ((intText p.Price).data ++ Char.ofNat 44 :: (tagRest ++ ((marshalString p.Tag).data
        ++ (descriptionKey.data ++ ((marshalString p.Description).data
        ++ ("\x7d".data ++ [])))))))) := by
    simp only [marshalProduct, String.data_append, h3, List.append_assoc, List.cons_append,
      List.append_nil]
  unfold lex
  rw [hdata, lexRun_fixed _ _ h1, lexRun_marshalString, lexRun_fixed _ _ h2,
    lexRun_intText _ _ _ h, lexRun_fixed _ _ h3', lexRun_marshalString, lexRun_fixed _ _ h4,
    lexRun_marshalString, lexRun_fixed _ _ h5]
  simp [lexRun, lexEnd]

/-- The text `json.Marshal` writes for a record whose price is a 64-bit integer is read
back by the decoder as the object `decodedSource`. -/
theorem parse_marshalProduct (p : Product) (h : p.Price.natAbs < 2 ^ 64) :
    parseJson (marshalProduct p) = some (decodedSource p) := by
  unfold parseJson
  rw [lex_marshalProduct p h]
  rfl

/-! ## C5: a record through the index and back -/

/-- C5, counterexample: the record with price `2^53 + 1 = 9007199254740993` is encoded
by `json.Marshal`; that text, decoded, is the `_source` of the only hit of a well-shaped
response; `Search` returns one record, with price `9007199254740992`: the sequence does
not contain the record. -/
theorem round_trip_loses_price :
    parseJson (marshalProduct largePriceProduct) = some (decodedSource largePriceProduct)
      ∧ Search (.ok (constClient (.response
          ⟨200, hitsBody [.map [("_source", decodedSource largePriceProduct)]]⟩))) () "Iphone"
        = ((), .returned ([{ largePriceProduct with Price := 9007199254740992 }], none))
      ∧ largePriceProduct ∉ [{ largePriceProduct with Price := 9007199254740992 }] :=
  ⟨parse_marshalProduct largePriceProduct (by decide), by decide, by decide⟩

/-- C5, amended: for every record `r` (valid UTF-8 strings) whose price is at most
`2^53` in absolute value, if a well-shaped response (every hit an object) contains a hit
whose `_source` is what the text `json.Marshal(r)` decodes to, then `Search` succeeds
and the sequence it returns contains `r`, all four fields equal. -/
theorem search_round_trip {σ : Type} (es : Client σ) (s s' : σ) (query : String)
    (res : Response) (hs : List Value) (r : Product)
    (hcall : es.Search s (searchRequest query) = (s', .response res))
    (hshape : HasHits res.Body hs) (hobj : AllObjects hs)
    (hhit : ∃ hit, Value.map hit ∈ hs
      ∧ parseJson (marshalProduct r) = some (mapIndex hit "_source"))
    (hprice : r.Price.natAbs ≤ 2 ^ 53) :
    ∃ products, Search (.ok es) s query = (s', .returned (products, none))
      ∧ r ∈ products := by
  refine ⟨hs.map hitRecord, Search_hits es s s' query res hs hcall hshape hobj, ?_⟩
  obtain ⟨hit, hmem, hsrc⟩ := hhit
  have h64 : r.Price.natAbs < 2 ^ 64 := lt_of_le_of_lt hprice (by norm_num)
  rw [parse_marshalProduct r h64, Option.some.injEq] at hsrc
  refine List.mem_map.mpr ⟨.map hit, hmem, ?_⟩
  simp only [hitRecord, ← hsrc]
  exact unmarshal_decodedSource r hprice

theorem search_round_trip_witness :
    ∃ products,
      Search (.ok (constClient (.response
        ⟨200, hitsBody [.map [("_source", decodedSource indexedProduct)]]⟩))) () "Iphone"
        = ((), .returned (products, none))
      ∧ indexedProduct ∈ products :=
  search_round_trip _ () () "Iphone" _ [.map [("_source", decodedSource indexedProduct)]]
    indexedProduct rfl (hitsBody_hasHits _)
    (by intro h hh; simp only [List.mem_singleton] at hh; exact ⟨_, hh⟩)
    ⟨_, List.mem_singleton.mpr rfl, parse_marshalProduct indexedProduct (by decide)⟩
    (by decide)

/-! ## C7: missing and unknown members -/

/-- C7, counterexample: the `_source` of the only hit is the document
`{"price":9007199254740995,"color":"black"}`, a correctly typed price and an unknown
key; decoded, its price is the double `4503599627370498 * 2`, and the record `Search`
returns has price `9007199254740996`. -/
theorem price_changes_in_subset_source :
    parseJson oddPriceText
        = some (.map [("price", .float64 ⟨false, 4503599627370498, 1⟩),
            ("color", .string "black")])
      ∧ Search (.ok (constClient (.response ⟨200, hitsBody [.map [("_source",
          .map [("price", .float64 ⟨false, 4503599627370498, 1⟩),
            ("color", .string "black")])]]⟩))) () "Iphone"
        = ((), .returned ([{ Price := 9007199254740996 }], none)) :=
  ⟨parseJson_eq _ _ (by decide), by decide⟩

/-- C7, amended: for a well-shaped response all of whose hits are JSON objects and a hit
of it whose `_source` is an object holding any subset of the four fields with correctly
typed values, the price being an integer of absolute value at most `2^53`, plus any
number of other keys none of which matches a field name even with letter case ignored
(the decoder compares keys with field names without regard to case), `Search` does not
fail and the record of that hit has each present field equal to the value in `_source`
and each absent field at its zero value. -/
theorem search_subset_source {σ : Type} (es : Client σ) (s s' : σ) (query : String)
    (res : Response) (hs : List Value) (i : Nat) (hit kvs : List (String × Value))
    (name tag description : Option String) (price : Option Int)
    (hcall : es.Search s (searchRequest query) = (s', .response res))
    (hshape : HasHits res.Body hs) (hobj : AllObjects hs)
    (hi : hs.get? i = some (.map hit)) (hsrc : mapIndex hit "_source" = .map kvs)
    (hname : lookupLast kvs "name" = name.map Value.string)
    (hprice : lookupLast kvs "price" = price.map (fun n => Value.float64 (Float64.ofInt n)))
    (htag : lookupLast kvs "tag" = tag.map Value.string)
    (hdesc : lookupLast kvs "description" = description.map Value.string)
    (hrange : ∀ n, price = some n → n.natAbs ≤ 2 ^ 53)
    (hother : ∀ f, ExactKey f kvs) :
    ∃ products, Search (.ok es) s query = (s', .returned (products, none))
      ∧ products.get? i = some
          { Name := name.getD "", Price := price.getD 0, Tag := tag.getD "",
            Description := description.getD "" } := by
  refine ⟨hs.map hitRecord, Search_hits es s s' query res hs hcall hshape hobj, ?_⟩
  simp only [List.get?_eq_getElem?, List.getElem?_map] at hi ⊢
  rw [hi]
  simp only [Option.map_some', hitRecord, hsrc, Option.some.injEq]
  apply Product.eq_of_cells
  intro g
  rw [unmarshal_cell _ _ g (hother g)]
  cases g
  · cases name <;> simp_all [Field.jsonName, cellUpdate, Product.cell]
  · cases price with
    | none => simp_all [Field.jsonName, cellUpdate, Product.cell]
    | some n =>
      have := toInt_ofInt n (hrange n rfl)
      simp_all [Field.jsonName, cellUpdate, Product.cell]
  · cases tag <;> simp_all [Field.jsonName, cellUpdate, Product.cell]
  · cases description <;> simp_all [Field.jsonName, cellUpdate, Product.cell]

theorem search_subset_source_witness :
    ∃ products,
      Search (.ok (constClient (.response
        ⟨200, hitsBody [.map [("_id", .string "1"), ("_source", .map sparseSource)]]⟩)))
        () "Iphone" = ((), .returned (products, none))
      ∧ products.get? 0 = some
          { Name := "Iphone 14 Pro", Price := 1000000, Tag := "", Description := "" } :=
  search_subset_source _ () () "Iphone" _
    [.map [("_id", .string "1"), ("_source", .map sparseSource)]] 0
    [("_id", .string "1"), ("_source", .map sparseSource)] sparseSource
    (some "Iphone 14 Pro") none none (some 1000000) rfl (hitsBody_hasHits _)
    (by intro h hh; simp only [List.mem_singleton] at hh; exact ⟨_, hh⟩)
    rfl rfl rfl rfl rfl rfl (by intro n hn; cases hn; decide) (by decide)

/-! ## C10: wrongly typed members -/

/-- C10, counterexample: the `_source` of the only hit is the document
`{"PRICE":7,"price":"x"}`, in which the price is given as a JSON string; the member in
capitals decodes into the same field, and the record `Search` returns has price 7, not
the zero value. -/
theorem wrong_type_price_not_zero :
    parseJson twoPricesText
        = some (.map [("PRICE", .float64 ⟨false, 7, 0⟩), ("price", .string "x")])
      ∧ Search (.ok (constClient (.response ⟨200, hitsBody [.map [("_source",
          .map [("PRICE", .float64 ⟨false, 7, 0⟩), ("price", .string "x")])]]⟩))) () "Iphone"
        = ((), .returned ([{ Price := 7 }], none)) :=
  ⟨parseJson_eq _ _ (by decide), by decide⟩

/-- C10, amended: for a well-shaped response all of whose hits are JSON objects and in
which the `_source` of a hit is an object with a wrongly typed field `f` (such as a
string for the price or a number for the name), no member that the decoder reads into
`f` (under the name of `f` or a key differing from it in letter case only) having a
value of its type, `Search` still returns success with one record per hit; in the
record at the position of that hit the field `f` is at its zero value, and every field
that has a correctly typed member holds the decoded value of such a member. -/
theorem search_wrong_type_tolerated {σ : Type} (es : Client σ) (s s' : σ) (query : String)
    (res : Response) (hs : List Value) (i : Nat) (hit kvs : List (String × Value))
    (f : Field)
    (hcall : es.Search s (searchRequest query) = (s', .response res))
    (hshape : HasHits res.Body hs) (hobj : AllObjects hs)
    (hi : hs.get? i = some (.map hit)) (hsrc : mapIndex hit "_source" = .map kvs)
    (hwrong : ∃ k ∈ kvs.map Prod.fst, fieldOf k = some f
      ∧ wrongType f (mapIndex kvs k) = true)
    (hnone : ∀ k ∈ kvs.map Prod.fst, fieldOf k = some f →
      decodedCell f (mapIndex kvs k) = none) :
    ∃ products p, Search (.ok es) s query = (s', .returned (products, none))
      ∧ products.length = hs.length
      ∧ products.get? i = some p
      ∧ p.cell f = ({} : Product).cell f
      ∧ ∀ g, (∃ k ∈ kvs.map Prod.fst, fieldOf k = some g
            ∧ (decodedCell g (mapIndex kvs k)).isSome = true) →
          ∃ k ∈ kvs.map Prod.fst, fieldOf k = some g
            ∧ decodedCell g (mapIndex kvs k) = some (p.cell g) := by
  refine ⟨hs.map hitRecord, unmarshalProduct {} (.map kvs),
    Search_hits es s s' query res hs hcall hshape hobj, by simp, ?_,
    unmarshal_cell_none _ kvs f hnone, ?_⟩
  · simp only [List.get?_eq_getElem?, List.getElem?_map] at hi ⊢
    rw [hi]
    simp only [Option.map_some', hitRecord, hsrc]
  · intro g hg
    exact unmarshal_cell_decoded {} kvs g hg

theorem search_wrong_type_tolerated_witness :
    ∃ products p,
      Search (.ok (constClient (.response
        ⟨200, hitsBody [.map [("_source", .map textPriceSource)]]⟩))) () "Iphone"
        = ((), .returned (products, none))
      ∧ products.length = [Value.map [("_source", .map textPriceSource)]].length
      ∧ products.get? 0 = some p
      ∧ p.cell .price = ({} : Product).cell .price
      ∧ ∀ g, (∃ k ∈ textPriceSource.map Prod.fst, fieldOf k = some g
            ∧ (decodedCell g (mapIndex textPriceSource k)).isSome = true) →
          ∃ k ∈ textPriceSource.map Prod.fst, fieldOf k = some g
            ∧ decodedCell g (mapIndex textPriceSource k) = some (p.cell g) :=
  search_wrong_type_tolerated _ () () "Iphone" _ [.map [("_source", .map textPriceSource)]] 0
    [("_source", .map textPriceSource)] textPriceSource .price rfl (hitsBody_hasHits _)
    (by intro h hh; simp only [List.mem_singleton] at hh; exact ⟨_, hh⟩)
    rfl rfl (by decide) (by decide)

end EsGolang
